import Mathlib

/-!
# yandex-disk-upload: the upload loop and its REST binding

A shallow embedding of `src/lib/disk.go` (package `yandisk`) and
`src/src/main.go` (package `main`), followed by theorems about them.

Go code with effects is embedded as explicit state passing over a `World`
(local directory, scripted network, clock, event trace).  A Go `panic` is the
outcome `Res.panic`; the unbounded `for` loops take a fuel argument and the
outcome `Res.timeout` stands for "still running when the fuel ran out".
-/

namespace YandexDiskUpload

/-! ## Values of the REST binding (`src/lib/disk.go`) -/

/-- Error object decoded from a failed API response.  The Go type `APIError`
is declared outside `src/`; the code under `src/` reads only its `Code`. -/
structure APIError where
  Code : String
  deriving DecidableEq, Repr

/-- A non-nil Go `error`: either a `*APIError` (the dynamic type that
`Exist` asserts on) or any other error, kept by its text. -/
inductive GoError where
  | api (e : APIError)
  | other (msg : String)
  deriving DecidableEq, Repr

/-- Go `SystemFolders`. -/
structure SystemFolders where
  Applications : String
  Downloads : String
  deriving DecidableEq, Repr

/-- Go `Disk`; the `uint` fields are naturals. -/
structure Disk where
  TrashSize : Nat
  TotalSpace : Nat
  UsedSpace : Nat
  SystemFolders : SystemFolders
  deriving DecidableEq, Repr

/-- The zero value of `Disk` (`var disk Disk`). -/
def Disk.zero : Disk := ⟨0, 0, 0, ⟨"", ""⟩⟩

/-- Go `Resource`, scalar fields only (the embedded item list is read by no
function under `src/`). -/
structure Resource where
  Name : String
  Path : String
  Created : String
  ResourceId : String
  ResourceType : String
  MimeType : String
  deriving DecidableEq, Repr

/-- One JSON document as a fresh `json.Decoder` obtains it from a response
body, given by what `Decode` yields for each target type used in the code
(`Except.error` carries the decoder's error text). -/
structure Doc where
  asAPIError : Except String APIError
  asDisk : Except String Disk
  asHref : Except String String
  asResource : Except String (Option Resource)

/-- Go `http.Response` as far as the code reads it: the status code and the
body stream, one element per document a fresh decoder would obtain. -/
structure Response where
  StatusCode : Int
  Body : List Doc

/-- Result of `http.Client.Do`: `(resp, nil)`, `(nil, err)`, or, when the
redirect policy gives up, both a response (its body already closed) and an
error. -/
inductive DoResult where
  | resp (r : Response)
  | fail (err : String)
  | redirect (r : Response) (err : String)

/-- Go `Client`. -/
structure Client where
  apiUrl : String
  authToken : String
  deriving DecidableEq, Repr

/-- Go `Config` of `main.go`. -/
structure Config where
  LogDir : String
  AppID : String
  Token : String
  LocalDir : String
  RemoteDir : String
  LimitDriveUsage : Int
  Imitation : Bool
  deriving DecidableEq, Repr

/-! ## Effects -/

/-- Value carried by a Go panic. -/
inductive PanicVal where
  | err (e : GoError)
  | nilDeref
  deriving DecidableEq, Repr

/-- Operand of a log call, before rendering. -/
inductive Arg where
  | str (s : String)
  | int (i : Int)
  | size (bytes : Int)
  | dur (seconds : Nat)
  | val (r : PanicVal)
  deriving DecidableEq, Repr

/-- Observable actions, plus three markers recording entry to and return from
the functions the ordering properties speak about: `callUploadFile` with the
arguments of the call, `retUploadFile`, and `retCheckDrive` with the returned
verdict and the value of the local `percentageUsage` it was computed from. -/
inductive Event where
  | print (args : List Arg)
  | printf (format : String) (args : List Arg)
  | sleep (seconds : Nat)
  | http (method url auth : String)
  | readDir (dir : String)
  | osOpen (path : String)
  | remove (path : String) (found : Bool)
  | callUploadFile (name filename : String)
  | retUploadFile
  | retCheckDrive (verdict : Bool) (percentageUsage : Int)
  deriving DecidableEq, Repr

/-- Library functions that are not part of `src/` and whose results the
program only passes on: `moon.PathJoin`, the standard `path.Join`,
`moon.FileSize`, and whether `http.NewRequest` rejects a method and URL
(`some` error text) or accepts them (`none`). -/
structure Lib where
  PathJoin : String → String → String
  pathJoin : String → String → String
  FileSize : String → Int
  NewRequestErr : String → String → Option String

/-- State of the environment.  `fs` lists the local files as (directory,
relative name) in enumeration order; `arrivals` are the files that appear
during each following sleep; `net` are the results of the following
`http.Client.Do` calls; `trace` holds the events so far, newest first. -/
structure World where
  fs : List (String × String)
  arrivals : List (List (String × String))
  net : List DoResult
  clock : Nat
  trace : List Event

/-- Outcome of running Go code: normal return, panic, or out of fuel. -/
inductive Res (α : Type) where
  | ok (a : α) (w : World)
  | panic (r : PanicVal) (w : World)
  | timeout (w : World)

/-- World reached by an outcome. -/
def Res.world {α : Type} : Res α → World
  | .ok _ w => w
  | .panic _ w => w
  | .timeout w => w

/-- Effectful computation. -/
def M (α : Type) : Type := World → Res α

/-- Sequencing: a panic or a timeout of the first part ends the whole. -/
def M.bind {α β : Type} (x : M α) (f : α → M β) : M β := fun w =>
  match x w with
  | .ok a w1 => f a w1
  | .panic r w1 => .panic r w1
  | .timeout w1 => .timeout w1

instance : Monad M where
  pure a := fun w => .ok a w
  bind := M.bind

/-- Go `panic(r)`. -/
def throwPanic {α : Type} (r : PanicVal) : M α := fun w => .panic r w

/-- Fuel exhausted. -/
def outOfFuel {α : Type} : M α := fun w => .timeout w

/-- Go `defer func() { if r := recover(); r != nil { h r } }()` around `body`:
a panic of `body` is stopped and `h` runs; the function then returns. -/
def withRecover (body : M Unit) (h : PanicVal → M Unit) : M Unit := fun w =>
  match body w with
  | .ok a w1 => .ok a w1
  | .panic r w1 => h r w1
  | .timeout w1 => .timeout w1

/-- Append one event to the trace. -/
def emit (e : Event) : M Unit
  | ⟨fs, arrivals, net, clock, trace⟩ => .ok () ⟨fs, arrivals, net, clock, e :: trace⟩

/-- Go `log.Print`. -/
def logPrint (args : List Arg) : M Unit := emit (.print args)

/-- Go `log.Printf`. -/
def logf (format : String) (args : List Arg) : M Unit := emit (.printf format args)

/-- Go `time.Sleep`: time passes and the next batch of files arrives. -/
def Sleep (seconds : Nat) : M Unit
  | ⟨fs, arrivals, net, clock, trace⟩ =>
    .ok () ⟨fs ++ (arrivals.head?.getD []), arrivals.tail, net, clock + seconds, .sleep seconds :: trace⟩

/-- Go `time.Now`, in seconds. -/
def Now : M Nat
  | ⟨fs, arrivals, net, clock, trace⟩ => .ok clock ⟨fs, arrivals, net, clock, trace⟩

/-- Go `http.Client.Do`: the request goes out and the next scripted result
comes back; an exhausted script is an unreachable network. -/
def clientDo (method url auth : String) : M DoResult
  | ⟨fs, arrivals, [], clock, trace⟩ =>
    .ok (.fail "network is unreachable") ⟨fs, arrivals, [], clock, .http method url auth :: trace⟩
  | ⟨fs, arrivals, r :: rest, clock, trace⟩ =>
    .ok r ⟨fs, arrivals, rest, clock, .http method url auth :: trace⟩

/-- Whether the file list `fs` has a file at `path`. -/
def fileExists (L : Lib) (fs : List (String × String)) (path : String) : Bool :=
  fs.any (fun f => L.PathJoin f.1 f.2 == path)

/-- Go `os.Open`, result `err` only: fails when there is no such file. -/
def osOpen (L : Lib) (path : String) : M (Option GoError)
  | ⟨fs, arrivals, net, clock, trace⟩ =>
    .ok (if fileExists L fs path then none else some (.other "no such file or directory"))
      ⟨fs, arrivals, net, clock, .osOpen path :: trace⟩

/-- Modelled from the spec: `moon.ReadDir` with `Files` and `RelativePath`
set is not in `src/`; it lists the entries of the directory non-recursively,
by relative name, in enumeration order. -/
def ReadDir (dir : String) : M (List String)
  | ⟨fs, arrivals, net, clock, trace⟩ =>
    .ok ((fs.filter (fun f => f.1 == dir)).map (fun f => f.2))
      ⟨fs, arrivals, net, clock, .readDir dir :: trace⟩

/-- Modelled from the spec: `moon.PathRemove` is not in `src/`; it deletes the
local file, and a file that is not there is reported, not treated as fatal. -/
def PathRemove (L : Lib) (path : String) : M Unit
  | ⟨fs, arrivals, net, clock, trace⟩ =>
    .ok () ⟨fs.filter (fun f => !(L.PathJoin f.1 f.2 == path)), arrivals, net, clock,
      .remove path (fileExists L fs path) :: trace⟩

/-- Modelled from the spec: `moon.Check` is not in `src/`; an unchecked error
result is turned into a fault, a nil error passes. -/
def Check (err : Option GoError) : M Unit :=
  match err with
  | none => pure ()
  | some e => throwPanic (.err e)

/-- Modelled from the spec: `moon.PercentageRelation` is not in `src/`; the
percentage is `floor(usedBytes * 100 / totalBytes)`. -/
def PercentageRelation (used total : Nat) : Int := ((used * 100 / total : Nat) : Int)

/-! ## `src/lib/disk.go` -/

/-- Go `ApiUrl`. -/
def ApiUrl : String := "https://cloud-api.yandex.net/v1/disk"

/-- Go `TokenUrl`. -/
def TokenUrl (appID : String) : String :=
  "https://oauth.yandex.ru/authorize?response_type=token&client_id=" ++ appID

/-- Go `NewClient`. -/
def NewClient (authToken : String) : Client := ⟨ApiUrl, authToken⟩

/-- Go `json.NewDecoder(body).Decode(&v)` on a fresh decoder: the next
document of the stream decoded for the target selected by `sel`; an empty
stream is `io.EOF`.  On an error the target keeps `zero`. -/
def Decode {α : Type} (sel : Doc → Except String α) (zero : α) (body : List Doc) :
    α × Option GoError :=
  match body with
  | [] => (zero, some (.other "EOF"))
  | d :: _ =>
    match sel d with
    | .ok a => (a, none)
    | .error m => (zero, some (.other m))

/-- A body stream that has been closed: every read fails. -/
def closedBody : List Doc :=
  [⟨.error "http: read on closed response body", .error "http: read on closed response body",
    .error "http: read on closed response body", .error "http: read on closed response body"⟩]

/-- Go `checkResponse`: from status 400 on, the body is decoded into a new
`APIError` (decoding errors skipped) which is the error.  The response is
returned too, with what is left of its body stream. -/
def checkResponse (r : Response) : Option GoError × Response :=
  if r.StatusCode ≥ 400 then
    (some (.api (Decode Doc.asAPIError ⟨""⟩ r.Body).1), { r with Body := r.Body.tail })
  else
    (none, r)

/-- Go `Client.apiRequest`.  The error of `http.NewRequest` is dropped, so a
rejected request is a nil `req` and `req.Header.Add` panics. -/
def apiRequest (L : Lib) (this : Client) (path method : String) :
    M (Option Response × Option GoError) := do
  let url := this.apiUrl ++ "/" ++ path
  match L.NewRequestErr method url with
  | some _ => throwPanic .nilDeref
  | none =>
    let r ← clientDo method url ("OAuth " ++ this.authToken)
    match r with
    | .fail e => pure (none, some (.other e))
    | .redirect resp e => pure (some { resp with Body := closedBody }, some (.other e))
    | .resp resp =>
      let (err, resp1) := checkResponse resp
      pure (some resp1, err)

/-- Go `Client.GetDisk`.  The error of `apiRequest` is overwritten by the
result of decoding; a nil response panics at `res.Body`. -/
def GetDisk (L : Lib) (this : Client) : M (Disk × Option GoError) := do
  let (res, _) ← apiRequest L this "" "GET"
  match res with
  | none => throwPanic .nilDeref
  | some r => pure (Decode Doc.asDisk Disk.zero r.Body)

/-- Go `Client.GetDiskMust`. -/
def GetDiskMust (L : Lib) (this : Client) : M Disk := do
  let (disk, err) ← GetDisk L this
  Check err
  pure disk

/-- Go `Client.CreateFolder`. -/
def CreateFolder (L : Lib) (this : Client) (path : String) : M (Option GoError) := do
  let (_, err) ← apiRequest L this ("resources?path=" ++ path) "PUT"
  pure err

/-- Go `Client.GetResource`. -/
def GetResource (L : Lib) (this : Client) (path : String) :
    M (Option Resource × Option GoError) := do
  let (res, err) ← apiRequest L this ("resources?path=" ++ path ++ "&limit=50&sort=-created") "GET"
  match err, res with
  | some e, _ => pure (none, some e)
  | none, none => throwPanic .nilDeref
  | none, some r =>
    match Decode Doc.asResource none r.Body with
    | (_, some e) => pure (none, some e)
    | (result, none) => pure (result, none)

/-- Go `Client.Exist`.  The `ok` bound by the type assertion shadows the
named result, which therefore stays false on every failed lookup. -/
def Exist (L : Lib) (this : Client) (path : String) : M (Bool × Option GoError) := do
  let (_, err) ← GetResource L this path
  match err with
  | none => pure (true, none)
  | some (.api e) => if e.Code = "DiskNotFoundError" then pure (false, none) else pure (false, err)
  | some (.other _) => pure (false, err)

/-- Go `Client.CreateFolderIfNotExist`. -/
def CreateFolderIfNotExist (L : Lib) (this : Client) (path : String) : M (Option GoError) := do
  let (ok, err) ← Exist L this path
  if !ok && err.isNone then
    CreateFolder L this path
  else
    pure err

/-- The closure `getUploadUrl` of Go `Client.UploadFile`. -/
def getUploadUrl (L : Lib) (this : Client) (path : String) : M (String × Option GoError) := do
  let (res, err) ← apiRequest L this ("resources/upload?path=" ++ path ++ "&overwrite=true") "GET"
  match err, res with
  | some e, _ => pure ("", some e)
  | none, none => throwPanic .nilDeref
  | none, some r =>
    match Decode Doc.asHref "" r.Body with
    | (_, some e) => pure ("", some e)
    | (href, none) => pure (href, none)

/-- Go `Client.UploadFile`.  The response of the PUT is closed unread: its
status code is not looked at. -/
def UploadFile (L : Lib) (this : Client) (localPath remotePath : String) : M (Option GoError) := do
  let err ← osOpen L localPath
  match err with
  | some e => pure (some e)
  | none =>
    let (href, err) ← getUploadUrl L this remotePath
    match err with
    | some e => pure (some e)
    | none =>
      match L.NewRequestErr "PUT" href with
      | some m => pure (some (.other m))
      | none =>
        let r ← clientDo "PUT" href ("OAuth " ++ this.authToken)
        match r with
        | .fail e => pure (some (.other e))
        | .redirect _ e => pure (some (.other e))
        | .resp _ => pure none

/-- Go `Client.UploadFileMust`. -/
def UploadFileMust (L : Lib) (this : Client) (localPath remotePath : String) : M Unit := do
  let err ← UploadFile L this localPath remotePath
  Check err

/-! ## `src/src/main.go` -/

/-- Go `nextFileForUpload`. -/
def nextFileForUpload (L : Lib) (conf : Config) : M (String × String) := do
  let files ← ReadDir conf.LocalDir
  match files with
  | [] => pure ("", "")
  | name :: _ => pure (name, L.PathJoin conf.LocalDir name)

/-- The inner `for` of Go `waitFile`. -/
def waitFileLoop (L : Lib) (conf : Config) (timestamp : Nat) : Nat → M (String × String)
  | 0 => outOfFuel
  | fuel + 1 => do
    Sleep 10
    let (name, filename) ← nextFileForUpload L conf
    if filename ≠ "" then
      let now ← Now
      logf "waited: %v" [.dur (now - timestamp)]
      pure (name, filename)
    else
      waitFileLoop L conf timestamp fuel

/-- Go `waitFile`. -/
def waitFile (L : Lib) (conf : Config) (fuel : Nat) : M (String × String) := do
  let (name, filename) ← nextFileForUpload L conf
  if filename = "" then
    let timestamp ← Now
    logPrint [.str "wait file..."]
    waitFileLoop L conf timestamp fuel
  else
    pure (name, filename)

/-- Go `uploadFile`; `client` is a pointer that may be nil. -/
def uploadFile (L : Lib) (conf : Config) (client : Option Client) (name filename : String) :
    M Unit := do
  emit (.callUploadFile name filename)
  let fileSize := L.FileSize filename
  logf "upload: %s [%s]" [.str name, .size fileSize]
  withRecover
    (do
      if conf.Imitation then
        logPrint [.str "simulate upload..."]
        Sleep 5
      else
        match client with
        | some c =>
          UploadFileMust L c filename (L.pathJoin conf.RemoteDir name)
          logf "upload completed" []
        | none => pure ()
      PathRemove L filename)
    (fun r => do
      logPrint [.val r]
      logPrint [.str "upload file fail:", .str filename]
      Sleep 10)
  emit .retUploadFile

/-- Go `checkDrive`; a nil `client` panics when `apiRequest` reads its field. -/
def checkDrive (L : Lib) (conf : Config) (client : Option Client) : M Bool := do
  logPrint [.str "check drive..."]
  match client with
  | none => throwPanic .nilDeref
  | some c =>
    let disk ← GetDiskMust L c
    let percentageUsage := PercentageRelation disk.UsedSpace disk.TotalSpace
    logf "drive usage: %s / %s [%d %%]\n"
      [.size disk.UsedSpace, .size disk.TotalSpace, .int percentageUsage]
    if percentageUsage > conf.LimitDriveUsage then
      logf "drive usage limit exceeded: %d %% (limit: %d %%). Please free up disk space..."
        [.int percentageUsage, .int conf.LimitDriveUsage]
      Sleep 30
      emit (.retCheckDrive false percentageUsage)
      pure false
    else
      emit (.retCheckDrive true percentageUsage)
      pure true

/-- Go `waitCheckDrive`. -/
def waitCheckDrive (L : Lib) (conf : Config) (client : Option Client) : Nat → M Unit
  | 0 => outOfFuel
  | fuel + 1 => do
    let pass ← checkDrive L conf client
    if pass then pure () else waitCheckDrive L conf client fuel

/-- The `for` of Go `run`; `inner` is the fuel of the loops inside one
iteration. -/
def runLoop (L : Lib) (conf : Config) (client : Option Client) (inner : Nat) : Nat → M Unit
  | 0 => outOfFuel
  | fuel + 1 => do
    let (name, filename) ← waitFile L conf inner
    waitCheckDrive L conf client inner
    uploadFile L conf client name filename
    runLoop L conf client inner fuel

/-- Go `run`. -/
def run (L : Lib) (conf : Config) (fuel : Nat) : M Unit := do
  if conf.Token = "" then
    logf "Go to the following link in your browser for get token:\n%s\nput retrieved Token to config and restart app\n"
      [.str (TokenUrl conf.AppID)]
  else
    let client := NewClient conf.Token
    waitCheckDrive L conf (some client) fuel
    let _ ← CreateFolderIfNotExist L client conf.RemoteDir
    runLoop L conf (some client) fuel fuel

/-! ## Reading traces -/

/-- Events added between world `w` and a later world `w2`, newest first. -/
def newEvents (w w2 : World) : List Event :=
  w2.trace.take (w2.trace.length - w.trace.length)

/-- Every event of the newest-first trace that satisfies `p` has a direct
predecessor in time, and that one satisfies `q`. -/
def Preceded (p q : Event → Bool) : List Event → Bool
  | [] => true
  | e :: rest => (!p e || (rest.head?.map q).getD false) && Preceded p q rest

/-- Every event of the newest-first trace that satisfies `p` and is not the
last one in time is directly followed in time by one that satisfies `q`. -/
def Followed (p q : Event → Bool) : List Event → Bool
  | [] => true
  | [_] => true
  | e2 :: e :: rest => (!p e || q e2) && Followed p q (e :: rest)

/-- Entry to `uploadFile`. -/
def isCallUpload : Event → Bool
  | .callUploadFile _ _ => true
  | _ => false

/-- Return from `uploadFile`. -/
def isRetUpload : Event → Bool
  | .retUploadFile => true
  | _ => false

/-- Return of `checkDrive` with verdict true on a usage within `limit`. -/
def isPassWithin (limit : Int) : Event → Bool
  | .retCheckDrive true p => decide (p ≤ limit)
  | _ => false

/-- Return of `checkDrive` with verdict true. -/
def isPass : Event → Bool
  | .retCheckDrive true _ => true
  | _ => false

/-- Return of `checkDrive` with verdict false. -/
def isFail : Event → Bool
  | .retCheckDrive false _ => true
  | _ => false

/-- Start of `checkDrive`: its first action is the log line "check drive...". -/
def isCheckStart : Event → Bool
  | .print [.str "check drive..."] => true
  | _ => false

/-- The directory scan of `nextFileForUpload`. -/
def isReadDir : Event → Bool
  | .readDir _ => true
  | _ => false

/-- A request sent to the storage service. -/
def isHttp : Event → Bool
  | .http _ _ _ => true
  | _ => false

/-- A call of `moon.PathRemove`. -/
def isRemove : Event → Bool
  | .remove _ _ => true
  | _ => false

/-- Events of the REST binding: requests and the opening of the local file. -/
def isBinding : Event → Bool
  | .http _ _ _ => true
  | .osOpen _ => true
  | _ => false

/-- A computation of the REST binding: it leaves the local files alone, never
runs out of fuel, and adds only `isBinding` events. -/
def LibCall {α : Type} (c : M α) : Prop :=
  ∀ w, (c w).world.fs = w.fs ∧ (∀ w2, c w ≠ .timeout w2) ∧
    ∃ es, (c w).world.trace = es ++ w.trace ∧ ∀ e ∈ es, isBinding e = true

/-- Return of `checkDrive`, with either verdict. -/
def isRetCheck : Event → Bool
  | .retCheckDrive _ _ => true
  | _ => false

/-- Events a quota check may add: anything but the markers of `uploadFile`
and the directory scan. -/
def isGateEv (e : Event) : Bool := !(isCallUpload e || isRetUpload e || isReadDir e)

/-- Events other than the four the ordering properties single out. -/
def isPlain (e : Event) : Bool :=
  !(isCallUpload e || isRetUpload e || isReadDir e || isRetCheck e)

/-- Events other than the markers of `uploadFile` and of `checkDrive`. -/
def notUpload (e : Event) : Bool := !(isCallUpload e || isRetUpload e || isRetCheck e)

/-- What may directly follow a passed quota check: the entry to `uploadFile`,
or (at startup) an event of the REST binding. -/
def afterPass (e : Event) : Bool := isCallUpload e || isBinding e

/-- The three succession properties of a trace: a completed upload is directly
followed by the directory scan, a failed quota check by the start of the next
check, a passed quota check by the upload (or by the folder step). -/
def Flows (t : List Event) : Prop :=
  Followed isRetUpload isReadDir t = true ∧ Followed isFail isCheckStart t = true ∧
    Followed isPass afterPass t = true

/-- A computation that, when it returns, has added at least one event. -/
def Sends {α : Type} (c : M α) : Prop :=
  ∀ w a w1, c w = .ok a w1 → w.trace.length < w1.trace.length

/-- Every directory scan of the newest-first trace has a passed quota check
somewhere before it in time. -/
def GateBefore : List Event → Bool
  | [] => true
  | e :: rest => (!isReadDir e || rest.any isPass) && GateBefore rest

/-- World in which `uploadFile` reaches the call of `UploadFileMust`: the
entry marker and the "upload:" log line have been added. -/
def atUpload (L : Lib) (name filename : String) (w : World) : World :=
  ⟨w.fs, w.arrivals, w.net, w.clock,
    .printf "upload: %s [%s]" [.str name, .size (L.FileSize filename)]
      :: .callUploadFile name filename :: w.trace⟩

/-- The ordering invariants of a trace of `run`. -/
def TraceInv (limit : Int) (t : List Event) : Prop :=
  Preceded isCallUpload (isPassWithin limit) t = true ∧ Flows t

/-- The invariant at the head of the upload loop: the trace is in order and
its newest event is not the return of a quota check. -/
def LoopInv (limit : Int) (t : List Event) : Prop :=
  TraceInv limit t ∧ ∀ b, t.head? = some b → isRetCheck b = false

/-! ## Concrete inputs -/

/-- Library functions of the examples: both joins put a slash between their
arguments, every file has 7 bytes, every request is well formed. -/
def exLib : Lib := ⟨fun d n => d ++ "/" ++ n, fun d n => d ++ "/" ++ n, fun _ => 7, fun _ _ => none⟩

/-- Configuration of the examples: limit 80 percent, simulation off. -/
def exConf : Config := ⟨"/var/log", "app", "token", "out", "/backup", 80, false⟩

/-- Client of the examples. -/
def exClient : Client := NewClient "token"

/-- The zero `Resource`. -/
def Resource.zero : Resource := ⟨"", "", "", "", "", ""⟩

/-- A JSON object carrying a quota: other targets decode it to their zero value. -/
def quotaDoc (used total : Nat) : Doc :=
  ⟨.ok ⟨""⟩, .ok ⟨0, total, used, ⟨"", ""⟩⟩, .ok "", .ok (some Resource.zero)⟩

/-- A JSON object carrying an upload link. -/
def hrefDoc (href : String) : Doc :=
  ⟨.ok ⟨""⟩, .ok Disk.zero, .ok href, .ok (some Resource.zero)⟩

/-- A JSON object describing the remote folder. -/
def folderDoc : Doc :=
  ⟨.ok ⟨""⟩, .ok Disk.zero, .ok "", .ok (some ⟨"backup", "disk:/backup", "", "", "dir", ""⟩)⟩

/-- A JSON error object with the given code. -/
def errorDoc (code : String) : Doc :=
  ⟨.ok ⟨code⟩, .ok Disk.zero, .ok "", .ok (some Resource.zero)⟩

/-- A world with the given local files and network script, at time zero with
an empty trace. -/
def exWorld (fs : List (String × String)) (net : List DoResult) : World := ⟨fs, [], net, 0, []⟩

/-- Two files wait locally; the service answers every request with success. -/
def worldTwoUploads : World :=
  exWorld [("out", "b.txt"), ("out", "a.txt")]
    [.resp ⟨200, [quotaDoc 10 100]⟩, .resp ⟨200, [folderDoc]⟩,
     .resp ⟨200, [quotaDoc 10 100]⟩, .resp ⟨200, [hrefDoc "https://uploader/1"]⟩, .resp ⟨201, []⟩,
     .resp ⟨200, [quotaDoc 11 100]⟩, .resp ⟨200, [hrefDoc "https://uploader/2"]⟩, .resp ⟨201, []⟩]

/-- The upload link is handed out, then the PUT of the bytes is answered with
status 507. -/
def worldPutRejected : World :=
  exWorld [("out", "b.txt")]
    [.resp ⟨200, [hrefDoc "https://uploader/1"]⟩, .resp ⟨507, [errorDoc "InsufficientStorage"]⟩]

/-- The quota request fails in transport. -/
def worldNetDown : World := exWorld [("out", "b.txt")] [.fail "dial tcp: network is unreachable"]

/-- The quota request is answered with status 401; after the error object the
body stream still holds a quota object. -/
def worldUnauthorized : World :=
  exWorld [("out", "b.txt")] [.resp ⟨401, [errorDoc "UnauthorizedError", quotaDoc 10 100]⟩]

/-- The remote folder is missing and creating it is refused. -/
def worldNoFolder : World :=
  exWorld [("out", "b.txt")]
    [.resp ⟨200, [quotaDoc 10 100]⟩,
     .resp ⟨404, [errorDoc "DiskNotFoundError"]⟩, .resp ⟨403, [errorDoc "ForbiddenError"]⟩,
     .resp ⟨200, [quotaDoc 10 100]⟩, .resp ⟨409, [errorDoc "DiskPathDoesntExistsError"]⟩]

/-- The configuration of the examples with simulation on. -/
def exConfSim : Config := { exConf with Imitation := true }

/-- No local files; the quota request is answered with the given usage. -/
def worldQuota (used total : Nat) : World := exWorld [] [.resp ⟨200, [quotaDoc used total]⟩]

/-- The quota is at 90 percent on the first request and at 50 on the second. -/
def worldQuotaTwice : World :=
  exWorld [] [.resp ⟨200, [quotaDoc 90 100]⟩, .resp ⟨200, [quotaDoc 50 100]⟩]

/-- One file waits locally; the quota is over the limit on the first check at
startup and on the first check inside the loop, and within it afterwards. -/
def worldRetryRun : World :=
  exWorld [("out", "b.txt")]
    [.resp ⟨200, [quotaDoc 90 100]⟩, .resp ⟨200, [quotaDoc 10 100]⟩,
     .resp ⟨200, [folderDoc]⟩,
     .resp ⟨200, [quotaDoc 95 100]⟩, .resp ⟨200, [quotaDoc 10 100]⟩,
     .resp ⟨200, [hrefDoc "https://uploader/1"]⟩, .resp ⟨201, []⟩]

/-- The request for the upload link is answered with status 409. -/
def worldNoLink : World :=
  exWorld [("out", "b.txt")] [.resp ⟨409, [errorDoc "DiskPathDoesntExistsError"]⟩]

/-- Link request and PUT are both answered with success. -/
def worldUploadOk : World :=
  exWorld [("out", "b.txt")] [.resp ⟨200, [hrefDoc "https://uploader/1"]⟩, .resp ⟨201, []⟩]

/-- An empty local directory. -/
def worldEmptyDir : World := exWorld [] []

/-- The resource lookup finds the folder. -/
def worldFolderFound : World := exWorld [] [.resp ⟨200, [folderDoc]⟩]

/-- The resource lookup is answered with status 404 and the not-found code. -/
def worldFolderMissing : World := exWorld [] [.resp ⟨404, [errorDoc "DiskNotFoundError"]⟩]

/-- The resource lookup is answered with status 401. -/
def worldFolderRefused : World := exWorld [] [.resp ⟨401, [errorDoc "UnauthorizedError"]⟩]

/-! ## Basic facts about the effect primitives -/

@[simp] theorem pure_apply {α : Type} (a : α) (w : World) : (pure a : M α) w = .ok a w := rfl

@[simp] theorem bind_apply {α β : Type} (x : M α) (f : α → M β) (w : World) :
    (x >>= f) w = match x w with
      | .ok a w1 => f a w1
      | .panic r w1 => .panic r w1
      | .timeout w1 => .timeout w1 := rfl

@[simp] theorem throwPanic_apply {α : Type} (r : PanicVal) (w : World) :
    (throwPanic r : M α) w = .panic r w := rfl

@[simp] theorem outOfFuel_apply {α : Type} (w : World) : (outOfFuel : M α) w = .timeout w := rfl

@[simp] theorem emit_apply (e : Event) (w : World) :
    emit e w = .ok () ⟨w.fs, w.arrivals, w.net, w.clock, e :: w.trace⟩ := by
  cases w; rfl

@[simp] theorem logPrint_apply (args : List Arg) (w : World) :
    logPrint args w = .ok () ⟨w.fs, w.arrivals, w.net, w.clock, .print args :: w.trace⟩ := by
  cases w; rfl

@[simp] theorem logf_apply (format : String) (args : List Arg) (w : World) :
    logf format args w =
      .ok () ⟨w.fs, w.arrivals, w.net, w.clock, .printf format args :: w.trace⟩ := by
  cases w; rfl

@[simp] theorem Sleep_apply (s : Nat) (w : World) :
    Sleep s w = .ok () ⟨w.fs ++ (w.arrivals.head?.getD []), w.arrivals.tail, w.net, w.clock + s,
      .sleep s :: w.trace⟩ := by
  cases w; rfl

@[simp] theorem Now_apply (w : World) : Now w = .ok w.clock w := by
  cases w; rfl

@[simp] theorem osOpen_apply (L : Lib) (path : String) (w : World) :
    osOpen L path w =
      .ok (if fileExists L w.fs path then none else some (.other "no such file or directory"))
        ⟨w.fs, w.arrivals, w.net, w.clock, .osOpen path :: w.trace⟩ := by
  cases w; rfl

@[simp] theorem ReadDir_apply (dir : String) (w : World) :
    ReadDir dir w = .ok ((w.fs.filter (fun f => f.1 == dir)).map (fun f => f.2))
      ⟨w.fs, w.arrivals, w.net, w.clock, .readDir dir :: w.trace⟩ := by
  cases w; rfl

@[simp] theorem PathRemove_apply (L : Lib) (path : String) (w : World) :
    PathRemove L path w =
      .ok () ⟨w.fs.filter (fun f => !(L.PathJoin f.1 f.2 == path)), w.arrivals, w.net, w.clock,
        .remove path (fileExists L w.fs path) :: w.trace⟩ := by
  cases w; rfl

theorem clientDo_apply (method url auth : String) (w : World) :
    clientDo method url auth w =
      .ok (w.net.headD (.fail "network is unreachable"))
        ⟨w.fs, w.arrivals, w.net.tail, w.clock, .http method url auth :: w.trace⟩ := by
  obtain ⟨fs, arrivals, net, clock, trace⟩ := w
  cases net <;> rfl

/-- A removed path is gone from the file list. -/
theorem fileExists_filter (L : Lib) (fs : List (String × String)) (path : String) :
    fileExists L (fs.filter (fun f => !(L.PathJoin f.1 f.2 == path))) path = false := by
  simp [fileExists, List.any_eq_false]

/-- Files that arrive do not make an existing file disappear. -/
theorem fileExists_append (L : Lib) (fs more : List (String × String)) (path : String)
    (h : fileExists L fs path = true) : fileExists L (fs ++ more) path = true := by
  simp only [fileExists, List.any_append, Bool.or_eq_true] at *
  exact Or.inl h

theorem newEvents_eq (w w2 : World) (es : List Event) (h : w2.trace = es ++ w.trace) :
    newEvents w w2 = es := by
  simp [newEvents, h]

theorem libCall_pure {α : Type} (a : α) : LibCall (pure a : M α) := by
  intro w
  exact ⟨rfl, by simp, [], rfl, by simp⟩

theorem libCall_throwPanic {α : Type} (r : PanicVal) : LibCall (throwPanic r : M α) := by
  intro w
  exact ⟨rfl, by simp, [], rfl, by simp⟩

theorem libCall_bind {α β : Type} {x : M α} {f : α → M β} (hx : LibCall x)
    (hf : ∀ a, LibCall (f a)) : LibCall (x >>= f) := by
  intro w
  obtain ⟨h1, h2, es, h3, h4⟩ := hx w
  rw [bind_apply]
  cases hxw : x w with
  | ok a w1 =>
    rw [hxw] at h1 h3
    simp only [Res.world] at h1 h3
    obtain ⟨g1, g2, es2, g3, g4⟩ := hf a w1
    refine ⟨by simpa [h1] using g1, by simpa using g2, es2 ++ es, ?_, ?_⟩
    · simp [g3, h3]
    · intro e he
      rcases List.mem_append.mp he with h | h
      · exact g4 e h
      · exact h4 e h
  | panic r w1 =>
    rw [hxw] at h1 h3
    exact ⟨h1, by simp, es, h3, h4⟩
  | timeout w1 => exact absurd hxw (h2 w1)

theorem libCall_clientDo (method url auth : String) : LibCall (clientDo method url auth) := by
  intro w
  rw [clientDo_apply]
  exact ⟨rfl, by simp, [.http method url auth], rfl, by simp [isBinding]⟩

theorem libCall_osOpen (L : Lib) (path : String) : LibCall (osOpen L path) := by
  intro w
  rw [osOpen_apply]
  exact ⟨rfl, by simp, [.osOpen path], rfl, by simp [isBinding]⟩

theorem libCall_Check (err : Option GoError) : LibCall (Check err) := by
  cases err with
  | none => exact libCall_pure ()
  | some e => exact libCall_throwPanic _

theorem libCall_apiRequest (L : Lib) (this : Client) (path method : String) :
    LibCall (apiRequest L this path method) := by
  unfold YandexDiskUpload.apiRequest
  dsimp only
  split
  · exact libCall_throwPanic _
  · refine libCall_bind (libCall_clientDo _ _ _) ?_
    intro r
    split
    · exact libCall_pure _
    · exact libCall_pure _
    · exact libCall_pure _

theorem libCall_GetDisk (L : Lib) (this : Client) : LibCall (GetDisk L this) := by
  unfold YandexDiskUpload.GetDisk
  refine libCall_bind (libCall_apiRequest _ _ _ _) ?_
  rintro ⟨res, e⟩
  cases res with
  | none => exact libCall_throwPanic _
  | some r => exact libCall_pure _

theorem libCall_GetDiskMust (L : Lib) (this : Client) : LibCall (GetDiskMust L this) := by
  unfold YandexDiskUpload.GetDiskMust
  refine libCall_bind (libCall_GetDisk _ _) ?_
  rintro ⟨disk, e⟩
  exact libCall_bind (libCall_Check _) (fun _ => libCall_pure _)

theorem libCall_CreateFolder (L : Lib) (this : Client) (path : String) :
    LibCall (CreateFolder L this path) := by
  unfold YandexDiskUpload.CreateFolder
  refine libCall_bind (libCall_apiRequest _ _ _ _) ?_
  rintro ⟨res, e⟩
  exact libCall_pure _

theorem libCall_GetResource (L : Lib) (this : Client) (path : String) :
    LibCall (GetResource L this path) := by
  unfold YandexDiskUpload.GetResource
  refine libCall_bind (libCall_apiRequest _ _ _ _) ?_
  rintro ⟨res, e⟩
  dsimp only
  split
  · exact libCall_pure _
  · exact libCall_throwPanic _
  · split
    · exact libCall_pure _
    · exact libCall_pure _

theorem libCall_Exist (L : Lib) (this : Client) (path : String) :
    LibCall (Exist L this path) := by
  unfold YandexDiskUpload.Exist
  refine libCall_bind (libCall_GetResource _ _ _) ?_
  rintro ⟨res, e⟩
  dsimp only
  split
  · exact libCall_pure _
  · split
    · exact libCall_pure _
    · exact libCall_pure _
  · exact libCall_pure _

theorem libCall_CreateFolderIfNotExist (L : Lib) (this : Client) (path : String) :
    LibCall (CreateFolderIfNotExist L this path) := by
  unfold YandexDiskUpload.CreateFolderIfNotExist
  refine libCall_bind (libCall_Exist _ _ _) ?_
  rintro ⟨ok, e⟩
  dsimp only
  split
  · exact libCall_CreateFolder _ _ _
  · exact libCall_pure _

theorem libCall_getUploadUrl (L : Lib) (this : Client) (path : String) :
    LibCall (getUploadUrl L this path) := by
  unfold YandexDiskUpload.getUploadUrl
  refine libCall_bind (libCall_apiRequest _ _ _ _) ?_
  rintro ⟨res, e⟩
  dsimp only
  split
  · exact libCall_pure _
  · exact libCall_throwPanic _
  · split
    · exact libCall_pure _
    · exact libCall_pure _

theorem libCall_UploadFile (L : Lib) (this : Client) (localPath remotePath : String) :
    LibCall (UploadFile L this localPath remotePath) := by
  unfold YandexDiskUpload.UploadFile
  refine libCall_bind (libCall_osOpen _ _) ?_
  intro err
  split
  · exact libCall_pure _
  · refine libCall_bind (libCall_getUploadUrl _ _ _) ?_
    rintro ⟨href, e⟩
    dsimp only
    split
    · exact libCall_pure _
    · split
      · exact libCall_pure _
      · refine libCall_bind (libCall_clientDo _ _ _) ?_
        intro r
        split
        · exact libCall_pure _
        · exact libCall_pure _
        · exact libCall_pure _

theorem isPlain_of_isBinding {e : Event} (h : isBinding e = true) : isPlain e = true := by
  cases e <;> simp_all [isBinding, isPlain, isCallUpload, isRetUpload, isReadDir, isRetCheck]

theorem isGateEv_of_isBinding {e : Event} (h : isBinding e = true) : isGateEv e = true := by
  cases e <;> simp_all [isBinding, isGateEv, isCallUpload, isRetUpload, isReadDir]

theorem isFail_false_of {e : Event} (h : isRetCheck e = false) : isFail e = false := by
  cases e <;> simp_all [isRetCheck, isFail]

theorem isPass_false_of {e : Event} (h : isRetCheck e = false) : isPass e = false := by
  cases e <;> simp_all [isRetCheck, isPass]

theorem Preceded_append (p q : Event → Bool) (es t : List Event)
    (hes : ∀ e ∈ es, p e = false) (ht : Preceded p q t = true) :
    Preceded p q (es ++ t) = true := by
  induction es with
  | nil => simpa using ht
  | cons e es ih =>
    have h1 := hes e (by simp)
    have h2 := ih (fun x hx => hes x (by simp [hx]))
    simp [Preceded, h1, h2]

theorem Preceded_cons_of_head (p q : Event → Bool) (e e0 : Event) (t : List Event)
    (hq : q e0 = true) (ht : Preceded p q (e0 :: t) = true) :
    Preceded p q (e :: e0 :: t) = true := by
  simp only [Preceded, List.head?_cons, Option.map_some', Option.getD_some, hq, Bool.or_true,
    Bool.true_and] at ht ⊢
  exact ht

theorem Followed_cons (p q : Event → Bool) (e : Event) (t : List Event)
    (ht : Followed p q t = true) (hh : ∀ e0, t.head? = some e0 → p e0 = true → q e = true) :
    Followed p q (e :: t) = true := by
  cases t with
  | nil => rfl
  | cons e0 t =>
    by_cases hp : p e0 = true
    · simp [Followed, hh e0 rfl hp, ht]
    · simp [Followed, hp, ht]

theorem Followed_append (p q : Event → Bool) (es t : List Event)
    (hes : ∀ e ∈ es, p e = false) (ht : Followed p q t = true)
    (hh : ∀ e0, t.head? = some e0 → p e0 = false) :
    Followed p q (es ++ t) = true := by
  induction es with
  | nil => simpa using ht
  | cons e es ih =>
    have h2 := ih (fun x hx => hes x (by simp [hx]))
    refine Followed_cons p q e (es ++ t) h2 ?_
    intro e0 he0 hp
    cases es with
    | nil =>
      have := hh e0 (by simpa using he0)
      simp [this] at hp
    | cons e1 es =>
      have : e0 = e1 := by simpa using he0.symm
      have := hes e0 (by simp [this])
      simp [this] at hp

theorem GateBefore_append (es t : List Event) (ht : GateBefore t = true)
    (hp : t.any isPass = true) : GateBefore (es ++ t) = true := by
  induction es with
  | nil => simpa using ht
  | cons e es ih =>
    have h1 : (es ++ t).any isPass = true := by
      simp only [List.any_append, hp, Bool.or_true]
    simp [GateBefore, ih, h1]

theorem GateBefore_of_noScan (t : List Event) (h : ∀ e ∈ t, isReadDir e = false) :
    GateBefore t = true := by
  induction t with
  | nil => rfl
  | cons e t ih =>
    simp [GateBefore, h e (by simp), ih (fun x hx => h x (by simp [hx]))]

theorem isPlain_parts {e : Event} (h : isPlain e = true) :
    isCallUpload e = false ∧ isRetUpload e = false ∧ isReadDir e = false ∧
      isRetCheck e = false := by
  simpa [isPlain, and_assoc] using h

theorem isGateEv_parts {e : Event} (h : isGateEv e = true) :
    isCallUpload e = false ∧ isRetUpload e = false ∧ isReadDir e = false := by
  simpa [isGateEv, and_assoc] using h

theorem notUpload_parts {e : Event} (h : notUpload e = true) :
    isCallUpload e = false ∧ isRetUpload e = false ∧ isRetCheck e = false := by
  simpa [notUpload, and_assoc] using h

theorem uploadFile_simulated (L : Lib) (conf : Config) (cl : Option Client)
    (name filename : String) (w : World) (hIm : conf.Imitation = true) :
    uploadFile L conf cl name filename w = .ok ()
      ⟨(w.fs ++ (w.arrivals.head?.getD [])).filter (fun f => !(L.PathJoin f.1 f.2 == filename)),
        w.arrivals.tail, w.net, w.clock + 5,
        [.retUploadFile, .remove filename (fileExists L (w.fs ++ (w.arrivals.head?.getD [])) filename),
        .sleep 5, .print [.str "simulate upload..."],
        .printf "upload: %s [%s]" [.str name, .size (L.FileSize filename)],
        .callUploadFile name filename] ++ w.trace⟩ := by
  simp [uploadFile, withRecover, hIm]

theorem uploadFile_nil (L : Lib) (conf : Config) (name filename : String) (w : World)
    (hIm : conf.Imitation = false) :
    uploadFile L conf none name filename w = .ok ()
      ⟨w.fs.filter (fun f => !(L.PathJoin f.1 f.2 == filename)), w.arrivals, w.net, w.clock,
        [.retUploadFile, .remove filename (fileExists L w.fs filename),
        .printf "upload: %s [%s]" [.str name, .size (L.FileSize filename)],
        .callUploadFile name filename] ++ w.trace⟩ := by
  simp [uploadFile, withRecover, hIm]

theorem uploadFile_uploaded (L : Lib) (conf : Config) (c : Client) (name filename : String)
    (w w1 : World) (hIm : conf.Imitation = false)
    (h : UploadFile L c filename (L.pathJoin conf.RemoteDir name) (atUpload L name filename w)
      = .ok none w1) :
    uploadFile L conf (some c) name filename w = .ok ()
      ⟨w1.fs.filter (fun f => !(L.PathJoin f.1 f.2 == filename)), w1.arrivals, w1.net, w1.clock,
        .retUploadFile :: .remove filename (fileExists L w1.fs filename)
          :: .printf "upload completed" [] :: w1.trace⟩ := by
  simp only [atUpload] at h
  simp [uploadFile, withRecover, hIm, UploadFileMust, Check, h]

theorem uploadFile_failed (L : Lib) (conf : Config) (c : Client) (name filename : String)
    (w w1 : World) (e : GoError) (hIm : conf.Imitation = false)
    (h : UploadFile L c filename (L.pathJoin conf.RemoteDir name) (atUpload L name filename w)
      = .ok (some e) w1) :
    uploadFile L conf (some c) name filename w = .ok ()
      ⟨w1.fs ++ (w1.arrivals.head?.getD []), w1.arrivals.tail, w1.net, w1.clock + 10,
        .retUploadFile :: .sleep 10 :: .print [.str "upload file fail:", .str filename]
          :: .print [.val (.err e)] :: w1.trace⟩ := by
  simp only [atUpload] at h
  simp [uploadFile, withRecover, hIm, UploadFileMust, Check, h]

theorem uploadFile_panicked (L : Lib) (conf : Config) (c : Client) (name filename : String)
    (w w1 : World) (r : PanicVal) (hIm : conf.Imitation = false)
    (h : UploadFile L c filename (L.pathJoin conf.RemoteDir name) (atUpload L name filename w)
      = .panic r w1) :
    uploadFile L conf (some c) name filename w = .ok ()
      ⟨w1.fs ++ (w1.arrivals.head?.getD []), w1.arrivals.tail, w1.net, w1.clock + 10,
        .retUploadFile :: .sleep 10 :: .print [.str "upload file fail:", .str filename]
          :: .print [.val r] :: w1.trace⟩ := by
  simp only [atUpload] at h
  simp [uploadFile, withRecover, hIm, UploadFileMust, Check, h]

theorem uploadFile_trace (L : Lib) (conf : Config) (cl : Option Client) (name filename : String)
    (w : World) :
    ∃ w2 es, uploadFile L conf cl name filename w = .ok () w2 ∧
      w2.trace = .retUploadFile :: (es ++ .callUploadFile name filename :: w.trace) ∧
      ∀ e ∈ es, isPlain e = true := by
  cases hIm : conf.Imitation with
  | true =>
    refine ⟨_, [.remove filename (fileExists L (w.fs ++ (w.arrivals.head?.getD [])) filename),
      .sleep 5, .print [.str "simulate upload..."],
      .printf "upload: %s [%s]" [.str name, .size (L.FileSize filename)]],
      uploadFile_simulated L conf cl name filename w hIm, rfl, ?_⟩
    simp [isPlain, isCallUpload, isRetUpload, isReadDir, isRetCheck]
  | false =>
    cases cl with
    | none =>
      refine ⟨_, [.remove filename (fileExists L w.fs filename),
        .printf "upload: %s [%s]" [.str name, .size (L.FileSize filename)]],
        uploadFile_nil L conf name filename w hIm, rfl, ?_⟩
      simp [isPlain, isCallUpload, isRetUpload, isReadDir, isRetCheck]
    | some c =>
      obtain ⟨-, hnt, es, htr, hes⟩ :=
        libCall_UploadFile L c filename (L.pathJoin conf.RemoteDir name) (atUpload L name filename w)
      have hes2 : ∀ e ∈ es, isPlain e = true := fun e he => isPlain_of_isBinding (hes e he)
      cases hu : UploadFile L c filename (L.pathJoin conf.RemoteDir name)
          (atUpload L name filename w) with
      | ok err w1 =>
        rw [hu] at htr
        simp only [Res.world, atUpload] at htr
        cases err with
        | none =>
          refine ⟨_, [.remove filename (fileExists L w1.fs filename),
            .printf "upload completed" []] ++ es ++
            [.printf "upload: %s [%s]" [.str name, .size (L.FileSize filename)]],
            uploadFile_uploaded L conf c name filename w w1 hIm hu, ?_, ?_⟩
          · simp [htr]
          · intro e he
            simp only [List.mem_append, List.mem_cons, List.mem_singleton, List.not_mem_nil,
              or_false] at he
            rcases he with ((rfl | rfl) | h) | rfl
            all_goals first | rfl | exact hes2 _ h
        | some e0 =>
          refine ⟨_, [.sleep 10, .print [.str "upload file fail:", .str filename],
            .print [.val (.err e0)]] ++ es ++
            [.printf "upload: %s [%s]" [.str name, .size (L.FileSize filename)]],
            uploadFile_failed L conf c name filename w w1 e0 hIm hu, ?_, ?_⟩
          · simp [htr]
          · intro e he
            simp only [List.mem_append, List.mem_cons, List.mem_singleton, List.not_mem_nil,
              or_false] at he
            rcases he with ((rfl | rfl | rfl) | h) | rfl
            all_goals first | rfl | exact hes2 _ h
      | panic r w1 =>
        rw [hu] at htr
        simp only [Res.world, atUpload] at htr
        refine ⟨_, [.sleep 10, .print [.str "upload file fail:", .str filename],
          .print [.val r]] ++ es ++
          [.printf "upload: %s [%s]" [.str name, .size (L.FileSize filename)]],
          uploadFile_panicked L conf c name filename w w1 r hIm hu, ?_, ?_⟩
        · simp [htr]
        · intro e he
          simp only [List.mem_append, List.mem_cons, List.mem_singleton, List.not_mem_nil,
            or_false] at he
          rcases he with ((rfl | rfl | rfl) | h) | rfl
          all_goals first | rfl | exact hes2 _ h
      | timeout w1 => exact absurd hu (hnt w1)

theorem head_append_of_forall (p : Event → Bool) (es t : List Event)
    (hes : ∀ e ∈ es, p e = false) (ht : ∀ e0, t.head? = some e0 → p e0 = false) :
    ∀ e0, (es ++ t).head? = some e0 → p e0 = false := by
  intro e0 h
  cases es with
  | nil => exact ht e0 (by simpa using h)
  | cons e es =>
    have : e = e0 := by simpa using h
    exact this ▸ hes e (by simp)

theorem getLast?_snoc (l : List Event) (a : Event) : (l ++ [a]).getLast? = some a := by
  simp

theorem isFail_of_isBinding {e : Event} (h : isBinding e = true) : isFail e = false := by
  cases e <;> simp_all [isBinding, isFail]

theorem Followed_of_tail (p q : Event → Bool) :
    ∀ B : List Event, (∀ e ∈ B.tail, p e = false) → Followed p q B = true := by
  intro B
  induction B with
  | nil => intro _; rfl
  | cons e2 B ih =>
    intro h
    cases B with
    | nil => rfl
    | cons e rest =>
      have h1 : p e = false := h e (by simp)
      have h2 := ih (fun x hx => h x (by simp at hx ⊢; exact Or.inr hx))
      simp [Followed, h1, h2]

theorem Followed_block (p q : Event → Bool) (B : List Event)
    (hB : ∀ e ∈ B.tail, p e = false) :
    ∀ A : List Event, Followed p q A = true → (∀ a, A.getLast? = some a → q a = true) →
      Followed p q (A ++ B) = true := by
  intro A
  induction A with
  | nil => intro _ _; simpa using Followed_of_tail p q B hB
  | cons a A ih =>
    intro hA hlast
    cases A with
    | nil =>
      refine Followed_cons p q a _ (by simpa using Followed_of_tail p q B hB) ?_
      intro e0 _ _
      exact hlast a rfl
    | cons a2 A2 =>
      simp only [Followed, Bool.and_eq_true] at hA
      have := ih hA.2 (fun x hx => hlast x (by simpa [List.getLast?_cons_cons] using hx))
      simp only [List.cons_append, Followed, Bool.and_eq_true]
      exact ⟨hA.1, by simpa using this⟩

theorem checkDrive_trace (L : Lib) (conf : Config) (cl : Option Client) (w : World) :
    ∃ es, (checkDrive L conf cl w).world.trace = es ++ w.trace ∧
      (∀ e ∈ es, isGateEv e = true) ∧
      (∀ w2, checkDrive L conf cl w = .ok true w2 →
        (w2.trace.head?.map (isPassWithin conf.LimitDriveUsage)).getD false = true) ∧
      (∀ e ∈ es.tail, isRetCheck e = false) ∧
      es.getLast? = some (.print [.str "check drive..."]) ∧
      (∀ w2, checkDrive L conf cl w = .ok false w2 → ∀ e ∈ es, isPass e = false) := by
  cases cl with
  | none =>
    refine ⟨[.print [.str "check drive..."]], ?_, ?_, ?_, ?_, rfl, ?_⟩
    · simp [checkDrive, Res.world]
    · simp [isGateEv, isCallUpload, isRetUpload, isReadDir]
    · intro w2 h
      simp [checkDrive] at h
    · simp
    · intro w2 h
      simp [checkDrive] at h
  | some c =>
    obtain ⟨-, -, es, htr, hes⟩ := libCall_GetDiskMust L c
      ⟨w.fs, w.arrivals, w.net, w.clock, .print [.str "check drive..."] :: w.trace⟩
    have hes2 : ∀ e ∈ es, isGateEv e = true := fun e he => isGateEv_of_isBinding (hes e he)
    cases hg : GetDiskMust L c
        ⟨w.fs, w.arrivals, w.net, w.clock, .print [.str "check drive..."] :: w.trace⟩ with
    | ok disk w1 =>
      rw [hg] at htr
      simp only [Res.world] at htr
      by_cases h : PercentageRelation disk.UsedSpace disk.TotalSpace > conf.LimitDriveUsage
      · refine ⟨[.retCheckDrive false (PercentageRelation disk.UsedSpace disk.TotalSpace),
          .sleep 30,
          .printf "drive usage limit exceeded: %d %% (limit: %d %%). Please free up disk space..."
            [.int (PercentageRelation disk.UsedSpace disk.TotalSpace), .int conf.LimitDriveUsage],
          .printf "drive usage: %s / %s [%d %%]\n"
            [.size disk.UsedSpace, .size disk.TotalSpace,
              .int (PercentageRelation disk.UsedSpace disk.TotalSpace)]] ++ es ++
          [.print [.str "check drive..."]], ?_, ?_, ?_, ?_, getLast?_snoc _ _, ?_⟩
        · simp [checkDrive, hg, h, Res.world, htr]
        · intro e he
          simp only [List.mem_append, List.mem_cons, List.mem_singleton, List.not_mem_nil,
            or_false] at he
          rcases he with ((rfl | rfl | rfl | rfl) | h) | rfl
          all_goals first | rfl | exact hes2 _ h
        · intro w2 h2
          simp [checkDrive, hg, h] at h2
        · intro e he
          simp only [List.cons_append, List.nil_append, List.tail_cons, List.mem_cons,
            List.mem_append, List.mem_singleton, List.not_mem_nil, or_false] at he
          rcases he with rfl | rfl | rfl | h | rfl
          all_goals first | rfl | exact (isPlain_parts (isPlain_of_isBinding (hes _ h))).2.2.2
        · intro _ _ e he
          have hq : ∀ x ∈ es, isPass x = false := fun x hx =>
            isPass_false_of (isPlain_parts (isPlain_of_isBinding (hes x hx))).2.2.2
          simp only [List.mem_append, List.mem_cons, List.mem_singleton, List.not_mem_nil,
            or_false] at he
          rcases he with ((rfl | rfl | rfl | rfl) | h) | rfl
          all_goals first | rfl | exact hq _ h
      · refine ⟨[.retCheckDrive true (PercentageRelation disk.UsedSpace disk.TotalSpace),
          .printf "drive usage: %s / %s [%d %%]\n"
            [.size disk.UsedSpace, .size disk.TotalSpace,
              .int (PercentageRelation disk.UsedSpace disk.TotalSpace)]] ++ es ++
          [.print [.str "check drive..."]], ?_, ?_, ?_, ?_, getLast?_snoc _ _, ?_⟩
        · simp [checkDrive, hg, h, Res.world, htr]
        · intro e he
          simp only [List.mem_append, List.mem_cons, List.mem_singleton, List.not_mem_nil,
            or_false] at he
          rcases he with ((rfl | rfl) | h) | rfl
          all_goals first | rfl | exact hes2 _ h
        · intro w2 h2
          simp [checkDrive, hg, h] at h2
          subst h2
          simpa [isPassWithin] using h
        · intro e he
          simp only [List.cons_append, List.nil_append, List.tail_cons, List.mem_cons,
            List.mem_append, List.mem_singleton, List.not_mem_nil, or_false] at he
          rcases he with rfl | h | rfl
          all_goals first | rfl | exact (isPlain_parts (isPlain_of_isBinding (hes _ h))).2.2.2
        · intro w2 h2
          simp [checkDrive, hg, h] at h2
    | panic r w1 =>
      rw [hg] at htr
      simp only [Res.world] at htr
      refine ⟨es ++ [.print [.str "check drive..."]], ?_, ?_, ?_, ?_, getLast?_snoc _ _, ?_⟩
      · simp [checkDrive, hg, Res.world, htr]
      · intro e he
        simp only [List.mem_append, List.mem_singleton] at he
        rcases he with h | rfl
        all_goals first | rfl | exact hes2 _ h
      · intro w2 h2
        simp [checkDrive, hg] at h2
      · intro e he
        have he2 := List.mem_of_mem_tail he
        simp only [List.mem_append, List.mem_singleton] at he2
        rcases he2 with h | rfl
        all_goals first | rfl | exact (isPlain_parts (isPlain_of_isBinding (hes _ h))).2.2.2
      · intro w2 h2
        simp [checkDrive, hg] at h2
    | timeout w1 =>
      rw [hg] at htr
      simp only [Res.world] at htr
      refine ⟨es ++ [.print [.str "check drive..."]], ?_, ?_, ?_, ?_, getLast?_snoc _ _, ?_⟩
      · simp [checkDrive, hg, Res.world, htr]
      · intro e he
        simp only [List.mem_append, List.mem_singleton] at he
        rcases he with h | rfl
        all_goals first | rfl | exact hes2 _ h
      · intro w2 h2
        simp [checkDrive, hg] at h2
      · intro e he
        have he2 := List.mem_of_mem_tail he
        simp only [List.mem_append, List.mem_singleton] at he2
        rcases he2 with h | rfl
        all_goals first | rfl | exact (isPlain_parts (isPlain_of_isBinding (hes _ h))).2.2.2
      · intro w2 h2
        simp [checkDrive, hg] at h2

theorem waitCheckDrive_trace (L : Lib) (conf : Config) (cl : Option Client) :
    ∀ (fuel : Nat) (w : World),
    ∃ es, (waitCheckDrive L conf cl fuel w).world.trace = es ++ w.trace ∧
      (∀ e ∈ es, isGateEv e = true) ∧
      (∀ w2, waitCheckDrive L conf cl fuel w = .ok () w2 →
        (w2.trace.head?.map (isPassWithin conf.LimitDriveUsage)).getD false = true) := by
  intro fuel
  induction fuel with
  | zero =>
    intro w
    exact ⟨[], by simp [waitCheckDrive, Res.world], by simp, by simp [waitCheckDrive]⟩
  | succ n ih =>
    intro w
    obtain ⟨es, htr, hes, hpass, -, -, -⟩ := checkDrive_trace L conf cl w
    cases hc : checkDrive L conf cl w with
    | ok b w1 =>
      rw [hc] at htr
      simp only [Res.world] at htr
      cases b with
      | true =>
        refine ⟨es, ?_, hes, ?_⟩
        · simp [waitCheckDrive, hc, Res.world, htr]
        · intro w2 h2
          simp [waitCheckDrive, hc] at h2
          subst h2
          exact hpass w1 hc
      | false =>
        obtain ⟨es2, htr2, hes2, hpass2⟩ := ih w1
        refine ⟨es2 ++ es, ?_, ?_, ?_⟩
        · simp [waitCheckDrive, hc, htr2, htr]
        · intro e he
          rcases List.mem_append.mp he with h | h
          · exact hes2 e h
          · exact hes e h
        · intro w2 h2
          simp [waitCheckDrive, hc] at h2
          exact hpass2 w2 h2
    | panic r w1 =>
      rw [hc] at htr
      exact ⟨es, by simpa [waitCheckDrive, hc] using htr, hes, by simp [waitCheckDrive, hc]⟩
    | timeout w1 =>
      rw [hc] at htr
      exact ⟨es, by simpa [waitCheckDrive, hc] using htr, hes, by simp [waitCheckDrive, hc]⟩

theorem waitCheckDrive_retry (L : Lib) (conf : Config) (cl : Option Client) :
    ∀ (fuel : Nat) (w : World),
    ∃ es, (waitCheckDrive L conf cl fuel w).world.trace = es ++ w.trace ∧
      Followed isFail isCheckStart es = true ∧
      (∀ a, es.getLast? = some a → isCheckStart a = true) ∧
      (∀ e ∈ es.tail, isPass e = false) := by
  intro fuel
  induction fuel with
  | zero =>
    intro w
    exact ⟨[], by simp [waitCheckDrive, Res.world], rfl, by simp, by simp⟩
  | succ n ih =>
    intro w
    obtain ⟨es, htr, -, -, htail, hlast, hnopass⟩ := checkDrive_trace L conf cl w
    have hF := Followed_of_tail isFail isCheckStart es
      (fun e he => isFail_false_of (htail e he))
    have hT : ∀ e ∈ es.tail, isPass e = false := fun e he => isPass_false_of (htail e he)
    have hL : ∀ a, es.getLast? = some a → isCheckStart a = true := by
      intro a ha
      rw [hlast] at ha
      cases ha
      rfl
    cases hc : checkDrive L conf cl w with
    | ok b w1 =>
      rw [hc] at htr
      simp only [Res.world] at htr
      cases b with
      | true => exact ⟨es, by simp [waitCheckDrive, hc, Res.world, htr], hF, hL, hT⟩
      | false =>
        obtain ⟨es2, htr2, hF2, hL2, hT2⟩ := ih w1
        refine ⟨es2 ++ es, ?_, Followed_block _ _ es
          (fun e he => isFail_false_of (htail e he)) es2 hF2 hL2, ?_, ?_⟩
        · simp [waitCheckDrive, hc, htr2, htr]
        · intro a ha
          have hne : es ≠ [] := by
            intro h0
            rw [h0] at hlast
            simp at hlast
          rw [List.getLast?_append_of_ne_nil _ hne] at ha
          exact hL a ha
        · intro e he
          cases es2 with
          | nil => exact hT e (by simpa using he)
          | cons a es3 =>
            simp only [List.cons_append, List.tail_cons, List.mem_append] at he
            rcases he with h | h
            · exact hT2 e (by simpa using h)
            · exact hnopass w1 hc e h
    | panic r w1 =>
      rw [hc] at htr
      exact ⟨es, by simpa [waitCheckDrive, hc] using htr, hF, hL, hT⟩
    | timeout w1 =>
      rw [hc] at htr
      exact ⟨es, by simpa [waitCheckDrive, hc] using htr, hF, hL, hT⟩

theorem nextFileForUpload_apply (L : Lib) (conf : Config) (fs : List (String × String))
    (arrivals : List (List (String × String))) (net : List DoResult) (clock : Nat)
    (trace : List Event) :
    ∃ r, nextFileForUpload L conf ⟨fs, arrivals, net, clock, trace⟩ =
      .ok r ⟨fs, arrivals, net, clock, .readDir conf.LocalDir :: trace⟩ := by
  simp only [nextFileForUpload, bind_apply, ReadDir_apply]
  cases (List.map (fun f => f.2) (List.filter (fun f => f.1 == conf.LocalDir) fs)) with
  | nil => exact ⟨_, rfl⟩
  | cons a l => exact ⟨_, rfl⟩

theorem waitFileLoop_trace (L : Lib) (conf : Config) (timestamp : Nat) :
    ∀ (fuel : Nat) (w : World),
    ∃ es, (waitFileLoop L conf timestamp fuel w).world.trace = es ++ w.trace ∧
      ∀ e ∈ es, notUpload e = true := by
  intro fuel
  induction fuel with
  | zero =>
    intro w
    exact ⟨[], by simp [waitFileLoop, Res.world], by simp⟩
  | succ n ih =>
    intro w
    obtain ⟨r, hr⟩ := nextFileForUpload_apply L conf
      (w.fs ++ (w.arrivals.head?.getD [])) w.arrivals.tail w.net (w.clock + 10)
      (.sleep 10 :: w.trace)
    obtain ⟨name, filename⟩ := r
    by_cases hf : filename = ""
    · obtain ⟨es, htr, hes⟩ := ih
        ⟨w.fs ++ (w.arrivals.head?.getD []), w.arrivals.tail, w.net, w.clock + 10,
          .readDir conf.LocalDir :: .sleep 10 :: w.trace⟩
      refine ⟨es ++ [.readDir conf.LocalDir, .sleep 10], ?_, ?_⟩
      · simp [waitFileLoop, hr, hf, htr]
      · intro e he
        simp only [List.mem_append, List.mem_cons, List.mem_singleton, List.not_mem_nil,
          or_false] at he
        rcases he with h | rfl | rfl
        all_goals first | rfl | exact hes _ h
    · refine ⟨[.printf "waited: %v" [.dur (w.clock + 10 - timestamp)],
        .readDir conf.LocalDir, .sleep 10], ?_, ?_⟩
      · simp [waitFileLoop, hr, hf, Res.world]
      · intro e he
        simp only [List.mem_cons, List.mem_singleton, List.not_mem_nil, or_false] at he
        rcases he with rfl | rfl | rfl
        all_goals rfl

theorem waitFile_trace (L : Lib) (conf : Config) (fuel : Nat) (w : World) :
    ∃ es, (waitFile L conf fuel w).world.trace = es ++ .readDir conf.LocalDir :: w.trace ∧
      ∀ e ∈ es, notUpload e = true := by
  obtain ⟨fs, arrivals, net, clock, trace⟩ := w
  obtain ⟨r, hr⟩ := nextFileForUpload_apply L conf fs arrivals net clock trace
  obtain ⟨name, filename⟩ := r
  by_cases hf : filename = ""
  · obtain ⟨es, htr, hes⟩ := waitFileLoop_trace L conf clock fuel
      ⟨fs, arrivals, net, clock,
        .print [.str "wait file..."] :: .readDir conf.LocalDir :: trace⟩
    refine ⟨es ++ [.print [.str "wait file..."]], ?_, ?_⟩
    · simp [waitFile, hr, hf, htr]
    · intro e he
      simp only [List.mem_append, List.mem_singleton] at he
      rcases he with h | rfl
      all_goals first | rfl | exact hes _ h
  · exact ⟨[], by simp [waitFile, hr, hf, Res.world], by simp⟩

theorem Followed_of_none (p q : Event → Bool) (A : List Event) (h : ∀ e ∈ A, p e = false) :
    Followed p q A = true :=
  Followed_of_tail p q A (fun e he => h e (List.mem_of_mem_tail he))

theorem Followed_join (p q : Event → Bool) (B : List Event) (hB : Followed p q B = true) :
    ∀ A : List Event, Followed p q A = true →
      (∀ a b, A.getLast? = some a → B.head? = some b → p b = true → q a = true) →
      Followed p q (A ++ B) = true := by
  intro A
  induction A with
  | nil => intro _ _; simpa using hB
  | cons a A ih =>
    intro hA hc
    cases A with
    | nil => exact Followed_cons p q a B hB (fun b hb hp => hc a b rfl hb hp)
    | cons a2 A2 =>
      simp only [Followed, Bool.and_eq_true] at hA
      have := ih hA.2 (fun x b hx hb hp =>
        hc x b (by simpa [List.getLast?_cons_cons] using hx) hb hp)
      simp only [List.cons_append, Followed, Bool.and_eq_true]
      exact ⟨hA.1, by simpa using this⟩

theorem Flows_of_quiet (A : List Event)
    (h : ∀ e ∈ A, isRetUpload e = false ∧ isRetCheck e = false) : Flows A :=
  ⟨Followed_of_none _ _ A (fun e he => (h e he).1),
    Followed_of_none _ _ A (fun e he => isFail_false_of (h e he).2),
    Followed_of_none _ _ A (fun e he => isPass_false_of (h e he).2)⟩

theorem Flows_join (A B : List Event) (hA : Flows A) (hB : Flows B)
    (hc : ∀ a b, A.getLast? = some a → B.head? = some b →
      (isRetUpload b = true → isReadDir a = true) ∧ (isFail b = true → isCheckStart a = true) ∧
        (isPass b = true → afterPass a = true)) : Flows (A ++ B) :=
  ⟨Followed_join _ _ B hB.1 A hA.1 (fun a b ha hb => (hc a b ha hb).1),
    Followed_join _ _ B hB.2.1 A hA.2.1 (fun a b ha hb => (hc a b ha hb).2.1),
    Followed_join _ _ B hB.2.2 A hA.2.2 (fun a b ha hb => (hc a b ha hb).2.2)⟩

theorem Flows_push (A B : List Event) (hA : Flows A) (hB : Flows B)
    (hq : ∀ b, B.head? = some b → isRetUpload b = false ∧ isRetCheck b = false) :
    Flows (A ++ B) := by
  refine Flows_join A B hA hB (fun a b _ hb => ⟨fun h => ?_, fun h => ?_, fun h => ?_⟩)
  · rw [(hq b hb).1] at h
    cases h
  · rw [isFail_false_of (hq b hb).2] at h
    cases h
  · rw [isPass_false_of (hq b hb).2] at h
    cases h

theorem head_mem_append (A B : List Event) (hA : A ≠ []) (b : Event)
    (h : (A ++ B).head? = some b) : b ∈ A := by
  cases A with
  | nil => exact absurd rfl hA
  | cons a A =>
    have : a = b := by simpa using h
    simp [this]

theorem pass_shape (limit : Int) (e : Event) (h : isPassWithin limit e = true) :
    isRetUpload e = false ∧ isFail e = false ∧ isPass e = true := by
  cases e with
  | retCheckDrive v p => cases v <;> simp_all [isPassWithin, isPass, isRetUpload, isFail]
  | _ => simp [isPassWithin] at h

theorem waitCheckDrive_block (L : Lib) (conf : Config) (cl : Option Client) (fuel : Nat)
    (w : World) :
    ∃ es, (waitCheckDrive L conf cl fuel w).world.trace = es ++ w.trace ∧
      (∀ e ∈ es, isGateEv e = true) ∧
      (∀ w2, waitCheckDrive L conf cl fuel w = .ok () w2 →
        (w2.trace.head?.map (isPassWithin conf.LimitDriveUsage)).getD false = true) ∧
      Flows es := by
  obtain ⟨es, htr, hes, hpass⟩ := waitCheckDrive_trace L conf cl fuel w
  obtain ⟨es2, htr2, hF, -, htail⟩ := waitCheckDrive_retry L conf cl fuel w
  have : es2 = es := List.append_cancel_right (htr2.symm.trans htr)
  subst this
  exact ⟨es2, htr, hes, hpass, Followed_of_none _ _ es2 (fun e he => (isGateEv_parts (hes e he)).2.1),
    hF, Followed_of_tail _ _ es2 htail⟩

theorem runLoop_trace (L : Lib) (conf : Config) (cl : Option Client) (inner : Nat) :
    ∀ (fuel : Nat) (w : World),
    ∃ es, (runLoop L conf cl inner fuel w).world.trace = es ++ w.trace ∧
      (LoopInv conf.LimitDriveUsage w.trace →
        TraceInv conf.LimitDriveUsage (runLoop L conf cl inner fuel w).world.trace) := by
  intro fuel
  induction fuel with
  | zero =>
    intro w
    exact ⟨[], by simp [runLoop, Res.world], fun h => by simpa [runLoop, Res.world] using h.1⟩
  | succ n ih =>
    intro w
    obtain ⟨es1, htr1, hes1⟩ := waitFile_trace L conf inner w
    have q1 : ∀ e ∈ es1 ++ [.readDir conf.LocalDir],
        isCallUpload e = false ∧ isRetUpload e = false ∧ isRetCheck e = false := by
      intro e he
      rcases List.mem_append.mp he with h | h
      · exact notUpload_parts (hes1 e h)
      · simp only [List.mem_singleton] at h
        subst h
        exact ⟨rfl, rfl, rfl⟩
    have inv1 : LoopInv conf.LimitDriveUsage w.trace →
        TraceInv conf.LimitDriveUsage (es1 ++ .readDir conf.LocalDir :: w.trace) := by
      rintro ⟨⟨hP, hFl⟩, hhead⟩
      have e1 : es1 ++ .readDir conf.LocalDir :: w.trace
          = (es1 ++ [.readDir conf.LocalDir]) ++ w.trace := by simp
      rw [e1]
      refine ⟨Preceded_append _ _ _ _ (fun e he => (q1 e he).1) hP,
        Flows_join _ _ (Flows_of_quiet _ (fun e he => (q1 e he).2)) hFl ?_⟩
      intro a b ha hb
      rw [getLast?_snoc] at ha
      cases ha
      refine ⟨fun _ => rfl, fun h => ?_, fun h => ?_⟩
      · rw [isFail_false_of (hhead b hb)] at h
        cases h
      · rw [isPass_false_of (hhead b hb)] at h
        cases h
    have head1 : ∀ b, (es1 ++ .readDir conf.LocalDir :: w.trace).head? = some b →
        isRetUpload b = false ∧ isRetCheck b = false := by
      intro b hb
      have e1 : es1 ++ .readDir conf.LocalDir :: w.trace
          = (es1 ++ [.readDir conf.LocalDir]) ++ w.trace := by simp
      rw [e1] at hb
      exact (q1 b (head_mem_append _ _ (by simp) b hb)).2
    cases h1 : waitFile L conf inner w with
    | ok r w1 =>
      obtain ⟨name, filename⟩ := r
      rw [h1] at htr1
      simp only [Res.world] at htr1
      obtain ⟨es2, htr2, hes2, hpass, hFl2⟩ := waitCheckDrive_block L conf cl inner w1
      have inv2 : LoopInv conf.LimitDriveUsage w.trace →
          TraceInv conf.LimitDriveUsage (es2 ++ w1.trace) := by
        intro hI
        obtain ⟨hP, hFl⟩ := inv1 hI
        rw [htr1]
        exact ⟨Preceded_append _ _ es2 _ (fun e he => (isGateEv_parts (hes2 e he)).1) hP,
          Flows_push es2 _ hFl2 hFl head1⟩
      cases h2 : waitCheckDrive L conf cl inner w1 with
      | ok u w2 =>
        rw [h2] at htr2
        simp only [Res.world] at htr2
        have hpass2 := hpass w2 h2
        obtain ⟨w3, es3, h3, htr3, hes3⟩ := uploadFile_trace L conf cl name filename w2
        obtain ⟨es4, htr4, hinv4⟩ := ih w3
        refine ⟨es4 ++ .retUploadFile :: es3 ++ .callUploadFile name filename :: es2 ++ es1
          ++ [.readDir conf.LocalDir], ?_, ?_⟩
        · simp [runLoop, h1, h2, h3, htr4, htr3, htr2, htr1]
        · intro hI
          have hI2 := inv2 hI
          rw [← htr2] at hI2
          obtain ⟨hP, hFl⟩ := hI2
          have hgoal : LoopInv conf.LimitDriveUsage w3.trace := by
            rw [htr3]
            cases ht : w2.trace with
            | nil => simp [ht] at hpass2
            | cons e0 t0 =>
              rw [ht] at hpass2 hP hFl
              simp only [List.head?_cons, Option.map_some', Option.getD_some] at hpass2
              obtain ⟨hne, hnf, -⟩ := pass_shape _ _ hpass2
              have q3 : ∀ e ∈ (Event.retUploadFile :: es3) ++ [.callUploadFile name filename],
                  isRetCheck e = false := by
                intro e he
                simp only [List.mem_append, List.mem_cons, List.mem_singleton,
                  List.not_mem_nil, or_false] at he
                rcases he with (rfl | h) | rfl
                · rfl
                · exact (isPlain_parts (hes3 e h)).2.2.2
                · rfl
              have e3 : Event.retUploadFile ::
                  (es3 ++ .callUploadFile name filename :: e0 :: t0)
                  = ((Event.retUploadFile :: es3) ++ [.callUploadFile name filename])
                    ++ (e0 :: t0) := by simp
              refine ⟨⟨?_, ?_⟩, ?_⟩
              · have := Preceded_append isCallUpload (isPassWithin conf.LimitDriveUsage)
                  (.retUploadFile :: es3) (.callUploadFile name filename :: e0 :: t0) ?_
                  (Preceded_cons_of_head _ _ _ _ _ hpass2 hP)
                · simpa using this
                · intro e he
                  rcases List.mem_cons.mp he with rfl | h
                  · rfl
                  · exact (isPlain_parts (hes3 e h)).1
              · rw [e3]
                refine Flows_join _ _ ⟨?_, Followed_of_none _ _ _
                    (fun e he => isFail_false_of (q3 e he)), Followed_of_none _ _ _
                    (fun e he => isPass_false_of (q3 e he))⟩ hFl ?_
                · refine Followed_of_tail _ _ _ ?_
                  intro e he
                  simp only [List.cons_append, List.tail_cons, List.mem_append,
                    List.mem_singleton] at he
                  rcases he with h | rfl
                  · exact (isPlain_parts (hes3 e h)).2.1
                  · rfl
                · intro a b ha hb
                  rw [getLast?_snoc] at ha
                  cases ha
                  simp only [List.head?_cons, Option.some.injEq] at hb
                  subst hb
                  refine ⟨fun h => ?_, fun h => ?_, fun _ => rfl⟩
                  · rw [hne] at h
                    cases h
                  · rw [hnf] at h
                    cases h
              · intro b hb
                simp only [List.head?_cons, Option.some.injEq] at hb
                subst hb
                rfl
          have := hinv4 hgoal
          simpa [runLoop, h1, h2, h3] using this
      | panic r w2 =>
        rw [h2] at htr2
        simp only [Res.world] at htr2
        refine ⟨es2 ++ es1 ++ [.readDir conf.LocalDir], ?_, ?_⟩
        · simp [runLoop, h1, h2, Res.world, htr2, htr1]
        · intro hI
          have := inv2 hI
          simpa [runLoop, h1, h2, Res.world, htr2] using this
      | timeout w2 =>
        rw [h2] at htr2
        simp only [Res.world] at htr2
        refine ⟨es2 ++ es1 ++ [.readDir conf.LocalDir], ?_, ?_⟩
        · simp [runLoop, h1, h2, Res.world, htr2, htr1]
        · intro hI
          have := inv2 hI
          simpa [runLoop, h1, h2, Res.world, htr2] using this
    | panic r w1 =>
      rw [h1] at htr1
      simp only [Res.world] at htr1
      refine ⟨es1 ++ [.readDir conf.LocalDir], ?_, ?_⟩
      · simp [runLoop, h1, Res.world, htr1]
      · intro hI
        have := inv1 hI
        simpa [runLoop, h1, Res.world, htr1] using this
    | timeout w1 =>
      rw [h1] at htr1
      simp only [Res.world] at htr1
      refine ⟨es1 ++ [.readDir conf.LocalDir], ?_, ?_⟩
      · simp [runLoop, h1, Res.world, htr1]
      · intro hI
        have := inv1 hI
        simpa [runLoop, h1, Res.world, htr1] using this

theorem any_isPass_of_head (limit : Int) (t : List Event)
    (h : (t.head?.map (isPassWithin limit)).getD false = true) : t.any isPass = true := by
  cases t with
  | nil => simp at h
  | cons e t =>
    simp only [List.head?_cons, Option.map_some', Option.getD_some] at h
    simp [(pass_shape limit e h).2.2]

theorem sends_bind {α β : Type} {x : M α} {f : α → M β} (hx : Sends x)
    (hf : ∀ a, LibCall (f a)) : Sends (x >>= f) := by
  intro w b w2 h
  rw [bind_apply] at h
  cases hxw : x w with
  | ok a w1 =>
    rw [hxw] at h
    obtain ⟨-, -, es, htr, -⟩ := hf a w1
    have h4 : f a w1 = .ok b w2 := h
    rw [h4] at htr
    simp only [Res.world] at htr
    have := hx w a w1 hxw
    rw [htr, List.length_append]
    omega
  | panic r w1 =>
    rw [hxw] at h
    cases h
  | timeout w1 =>
    rw [hxw] at h
    cases h

theorem sends_throwPanic {α : Type} (r : PanicVal) : Sends (throwPanic r : M α) := by
  intro w a w1 h
  cases h

theorem sends_clientDo (method url auth : String) : Sends (clientDo method url auth) := by
  intro w r w1 h
  rw [clientDo_apply] at h
  injection h with _ h2
  subst h2
  simp

theorem sends_apiRequest (L : Lib) (this : Client) (path method : String) :
    Sends (apiRequest L this path method) := by
  unfold YandexDiskUpload.apiRequest
  dsimp only
  split
  · exact sends_throwPanic _
  · refine sends_bind (sends_clientDo _ _ _) ?_
    intro r
    split <;> exact libCall_pure _

theorem sends_GetResource (L : Lib) (this : Client) (path : String) :
    Sends (GetResource L this path) := by
  unfold YandexDiskUpload.GetResource
  refine sends_bind (sends_apiRequest _ _ _ _) ?_
  rintro ⟨res, e⟩
  dsimp only
  split
  · exact libCall_pure _
  · exact libCall_throwPanic _
  · split <;> exact libCall_pure _

theorem sends_Exist (L : Lib) (this : Client) (path : String) : Sends (Exist L this path) := by
  unfold YandexDiskUpload.Exist
  refine sends_bind (sends_GetResource _ _ _) ?_
  rintro ⟨res, e⟩
  dsimp only
  split
  · exact libCall_pure _
  · split <;> exact libCall_pure _
  · exact libCall_pure _

theorem sends_CreateFolderIfNotExist (L : Lib) (this : Client) (path : String) :
    Sends (CreateFolderIfNotExist L this path) := by
  unfold YandexDiskUpload.CreateFolderIfNotExist
  refine sends_bind (sends_Exist _ _ _) ?_
  rintro ⟨ok, e⟩
  dsimp only
  split
  · exact libCall_CreateFolder _ _ _
  · exact libCall_pure _

theorem run_trace (L : Lib) (conf : Config) (fuel : Nat) (w : World) (h0 : w.trace = []) :
    TraceInv conf.LimitDriveUsage (run L conf fuel w).world.trace ∧
      GateBefore (run L conf fuel w).world.trace = true := by
  by_cases ht : conf.Token = ""
  · have : (run L conf fuel w).world.trace = [.printf
        "Go to the following link in your browser for get token:\n%s\nput retrieved Token to config and restart app\n"
        [.str (TokenUrl conf.AppID)]] := by
      simp [run, ht, Res.world, h0]
    rw [this]
    exact ⟨⟨rfl, rfl, rfl, rfl⟩, rfl⟩
  · obtain ⟨es1, htr1, hes1, hpass, hFl1⟩ :=
      waitCheckDrive_block L conf (some (NewClient conf.Token)) fuel w
    rw [h0, List.append_nil] at htr1
    have hP1 : Preceded isCallUpload (isPassWithin conf.LimitDriveUsage) es1 = true := by
      simpa using Preceded_append isCallUpload (isPassWithin conf.LimitDriveUsage) es1 []
        (fun e he => (isGateEv_parts (hes1 e he)).1) rfl
    have base1 : TraceInv conf.LimitDriveUsage es1 ∧ GateBefore es1 = true :=
      ⟨⟨hP1, hFl1⟩, GateBefore_of_noScan _ (fun e he => (isGateEv_parts (hes1 e he)).2.2)⟩
    cases h1 : waitCheckDrive L conf (some (NewClient conf.Token)) fuel w with
    | ok u w1 =>
      rw [h1] at htr1
      simp only [Res.world] at htr1
      have hpass0 := hpass w1 h1
      rw [htr1] at hpass0
      have hpass1 := any_isPass_of_head _ _ hpass0
      obtain ⟨-, -, es2, htr2, hes2⟩ :=
        libCall_CreateFolderIfNotExist L (NewClient conf.Token) conf.RemoteDir w1
      have q2 : ∀ e ∈ es2, isCallUpload e = false ∧ isRetUpload e = false ∧
          isReadDir e = false ∧ isRetCheck e = false :=
        fun e he => isPlain_parts (isPlain_of_isBinding (hes2 e he))
      have base2 : TraceInv conf.LimitDriveUsage (es2 ++ es1) ∧
          GateBefore (es2 ++ es1) = true := by
        refine ⟨⟨Preceded_append _ _ es2 es1 (fun e he => (q2 e he).1) base1.1.1,
          Flows_join es2 es1 (Flows_of_quiet es2
            (fun e he => ⟨(q2 e he).2.1, (q2 e he).2.2.2⟩)) hFl1 ?_⟩,
          GateBefore_of_noScan _ ?_⟩
        · intro a b ha hb
          have hb2 : isPassWithin conf.LimitDriveUsage b = true := by
            simpa [hb] using hpass0
          obtain ⟨hne, hnf, -⟩ := pass_shape _ _ hb2
          refine ⟨fun h => ?_, fun h => ?_, fun _ => ?_⟩
          · rw [hne] at h
            cases h
          · rw [hnf] at h
            cases h
          · have := hes2 a (List.mem_of_getLast?_eq_some ha)
            simp [afterPass, this]
        · intro e he
          rcases List.mem_append.mp he with h | h
          · exact (q2 e h).2.2.1
          · exact (isGateEv_parts (hes1 e h)).2.2
      cases h2 : CreateFolderIfNotExist L (NewClient conf.Token) conf.RemoteDir w1 with
      | ok err w2 =>
        have hlen := sends_CreateFolderIfNotExist L (NewClient conf.Token) conf.RemoteDir
          w1 err w2 h2
        rw [h2, htr1] at htr2
        simp only [Res.world] at htr2
        have hne2 : es2 ≠ [] := by
          intro h
          rw [htr2, htr1, h] at hlen
          simp at hlen
        obtain ⟨es3, htr3, hinv3⟩ :=
          runLoop_trace L conf (some (NewClient conf.Token)) fuel fuel w2
        have hrun : (run L conf fuel w).world =
            (runLoop L conf (some (NewClient conf.Token)) fuel fuel w2).world := by
          simp [run, ht, h1, h2]
        rw [hrun]
        refine ⟨hinv3 ⟨htr2 ▸ base2.1, ?_⟩, ?_⟩
        · intro b hb
          rw [htr2] at hb
          exact (q2 b (head_mem_append _ _ hne2 b hb)).2.2.2
        · rw [htr3, htr2]
          refine GateBefore_append _ _ base2.2 ?_
          simp only [List.any_append, hpass1, Bool.or_true]
      | panic r w2 =>
        rw [h2, htr1] at htr2
        simp only [Res.world] at htr2
        have hrun : (run L conf fuel w).world = w2 := by
          simp [run, ht, h1, h2, Res.world]
        rw [hrun, htr2]
        exact base2
      | timeout w2 =>
        rw [h2, htr1] at htr2
        simp only [Res.world] at htr2
        have hrun : (run L conf fuel w).world = w2 := by
          simp [run, ht, h1, h2, Res.world]
        rw [hrun, htr2]
        exact base2
    | panic r w1 =>
      rw [h1] at htr1
      simp only [Res.world] at htr1
      have hrun : (run L conf fuel w).world = w1 := by
        simp [run, ht, h1, Res.world]
      rw [hrun, htr1]
      exact base1
    | timeout w1 =>
      rw [h1] at htr1
      simp only [Res.world] at htr1
      have hrun : (run L conf fuel w).world = w1 := by
        simp [run, ht, h1, Res.world]
      rw [hrun, htr1]
      exact base1

theorem any_isRemove_of_isBinding (es : List Event) (h : ∀ e ∈ es, isBinding e = true) :
    es.any isRemove = false := by
  rw [List.any_eq_false]
  intro e he
  have := h e he
  cases e <;> simp_all [isBinding, isRemove]

theorem Preceded_mono (p q q2 : Event → Bool) (hq : ∀ e, q e = true → q2 e = true) :
    ∀ t : List Event, Preceded p q t = true → Preceded p q2 t = true := by
  intro t
  induction t with
  | nil => intro _; rfl
  | cons e t ih =>
    intro h
    simp only [Preceded, Bool.and_eq_true, Bool.or_eq_true, Bool.not_eq_true'] at h ⊢
    refine ⟨?_, ih h.2⟩
    rcases h.1 with h1 | h1
    · exact Or.inl h1
    · right
      cases t with
      | nil => simp at h1
      | cons e0 t0 =>
        simp only [List.head?_cons, Option.map_some', Option.getD_some] at h1 ⊢
        exact hq e0 h1

theorem isPass_of_isPassWithin (limit : Int) (e : Event) (h : isPassWithin limit e = true) :
    isPass e = true := by
  cases e with
  | retCheckDrive v p => cases v <;> simp_all [isPassWithin, isPass]
  | _ => simp [isPassWithin] at h

theorem exLib_join_ne (d n : String) : exLib.PathJoin d n ≠ "" := by
  intro h
  have := congrArg String.length h
  simp [exLib] at this
  exact absurd this.1.2 (by decide)

/-- The failures that `Client.UploadFile` does report, for an existing local
file: a transport error or a status from 400 on of the link request, and a
transport error of the PUT. -/
theorem UploadFile_reported_failures (L : Lib) (c : Client) (localPath remotePath : String)
    (w : World) (hopen : fileExists L w.fs localPath = true)
    (hreq : L.NewRequestErr "GET"
      (c.apiUrl ++ "/" ++ ("resources/upload?path=" ++ remotePath ++ "&overwrite=true")) = none) :
    (∀ e rest, w.net = .fail e :: rest →
      ∃ w1, UploadFile L c localPath remotePath w = .ok (some (.other e)) w1) ∧
    (∀ r rest, w.net = .resp r :: rest → r.StatusCode ≥ 400 →
      ∃ a w1, UploadFile L c localPath remotePath w = .ok (some (.api a)) w1) ∧
    (∀ status d body href e rest, w.net = .resp ⟨status, d :: body⟩ :: .fail e :: rest →
      status < 400 → d.asHref = .ok href → L.NewRequestErr "PUT" href = none →
      ∃ w1, UploadFile L c localPath remotePath w = .ok (some (.other e)) w1) := by
  refine ⟨?_, ?_, ?_⟩
  · intro e rest hnet
    simp [UploadFile, hopen, getUploadUrl, apiRequest, hreq, clientDo_apply, hnet]
  · intro r rest hnet hst
    simp [UploadFile, hopen, getUploadUrl, apiRequest, hreq, clientDo_apply, hnet,
      checkResponse, hst]
  · intro status d body href e rest hnet hst hd hput
    have hst2 : ¬ (400 ≤ status) := not_le.mpr hst
    simp [UploadFile, hopen, getUploadUrl, apiRequest, hreq, clientDo_apply, hnet,
      checkResponse, hst2, Decode, hd, hput]

/-- On a status from 400 on whose body stream holds the error object alone,
`Client.GetDisk` returns the zero `Disk` with the decoder's end-of-stream
error (not the API error). -/
theorem GetDisk_error_body_alone (L : Lib) (c : Client) (w : World) (status : Int) (d : Doc)
    (rest : List DoResult) (hreq : L.NewRequestErr "GET" (c.apiUrl ++ "/") = none)
    (hnet : w.net = .resp ⟨status, [d]⟩ :: rest) (hst : status ≥ 400) :
    ∃ w1, GetDisk L c w = .ok (Disk.zero, some (.other "EOF")) w1 := by
  simp [GetDisk, apiRequest, hreq, clientDo_apply, hnet, checkResponse, hst, Decode]

theorem head_isPass_of_within (limit : Int) (t : List Event)
    (h : (t.head?.map (isPassWithin limit)).getD false = true) :
    (t.head?.map isPass).getD false = true := by
  cases t with
  | nil => simp at h
  | cons e t =>
    simp only [List.head?_cons, Option.map_some', Option.getD_some] at h ⊢
    exact isPass_of_isPassWithin limit e h

/-! ## The claims -/

/-- C1: for every quota snapshot that `GetDisk` returns with a positive total,
`checkDrive` returns, and it returns true exactly when
`floor(used * 100 / total)` is at most `LimitDriveUsage` and false exactly
when that percentage is strictly greater than the limit. -/
theorem checkDrive_verdict (L : Lib) (conf : Config) (c : Client) (w w1 : World) (disk : Disk)
    (hq : GetDisk L c (logPrint [.str "check drive..."] w).world = .ok (disk, none) w1)
    (_ht : 0 < disk.TotalSpace) :
    ∃ b w2, checkDrive L conf (some c) w = .ok b w2 ∧
      (b = true ↔ ((disk.UsedSpace * 100 / disk.TotalSpace : Nat) : Int) ≤ conf.LimitDriveUsage) ∧
      (b = false ↔ conf.LimitDriveUsage < ((disk.UsedSpace * 100 / disk.TotalSpace : Nat) : Int)) := by
  simp only [logPrint_apply, Res.world] at hq
  by_cases h : PercentageRelation disk.UsedSpace disk.TotalSpace > conf.LimitDriveUsage
  · obtain ⟨w2, hw⟩ : ∃ w2, checkDrive L conf (some c) w = .ok false w2 := by
      simp [checkDrive, GetDiskMust, hq, Check, h]
    refine ⟨false, w2, hw, ?_, ?_⟩
    · simpa [PercentageRelation] using h
    · simpa [PercentageRelation] using h
  · obtain ⟨w2, hw⟩ : ∃ w2, checkDrive L conf (some c) w = .ok true w2 := by
      simp [checkDrive, GetDiskMust, hq, Check, h]
    refine ⟨true, w2, hw, ?_, ?_⟩
    · simpa [PercentageRelation] using h
    · simpa [PercentageRelation] using h

/-- C1, at the boundary: used 80 of 100 with limit 80. -/
theorem checkDrive_verdict_witness :
    ∃ b w2, checkDrive exLib exConf (some exClient) (worldQuota 80 100) = .ok b w2 ∧
      (b = true ↔ ((80 * 100 / 100 : Nat) : Int) ≤ 80) ∧
      (b = false ↔ (80 : Int) < ((80 * 100 / 100 : Nat) : Int)) :=
  checkDrive_verdict exLib exConf exClient (worldQuota 80 100) _ ⟨0, 100, 80, ⟨"", ""⟩⟩ rfl
    (by decide)

/-- The two examples of the boundary: 80 of 100 passes a limit of 80, 81 of
100 fails it. -/
theorem checkDrive_boundary :
    (∃ w2, checkDrive exLib exConf (some exClient) (worldQuota 80 100) = .ok true w2) ∧
    (∃ w2, checkDrive exLib exConf (some exClient) (worldQuota 81 100) = .ok false w2) :=
  ⟨⟨_, rfl⟩, ⟨_, rfl⟩⟩

/-- C2: with simulation off and a non-nil client, `uploadFile` returns
normally, and `moon.PathRemove` is reached exactly when `Client.UploadFile`
returned a nil error; then the local file is gone.  Otherwise (an error, which
`UploadFileMust` turns into a panic, or a panic inside) the fault is recovered,
the log line naming the file is written and a file that existed still exists. -/
theorem uploadFile_removes_iff_uploaded (L : Lib) (conf : Config) (c : Client)
    (name filename : String) (w : World) (hIm : conf.Imitation = false) :
    ∃ w2, uploadFile L conf (some c) name filename w = .ok () w2 ∧
      ((newEvents w w2).any isRemove = true ↔
        ∃ w1, UploadFile L c filename (L.pathJoin conf.RemoteDir name)
          (atUpload L name filename w) = .ok none w1) ∧
      ((∃ w1, UploadFile L c filename (L.pathJoin conf.RemoteDir name)
          (atUpload L name filename w) = .ok none w1) →
        fileExists L w2.fs filename = false) ∧
      ((¬ ∃ w1, UploadFile L c filename (L.pathJoin conf.RemoteDir name)
          (atUpload L name filename w) = .ok none w1) →
        Event.print [.str "upload file fail:", .str filename] ∈ newEvents w w2 ∧
        (fileExists L w.fs filename = true → fileExists L w2.fs filename = true)) := by
  obtain ⟨hfs, hnt, es, htr, hes⟩ :=
    libCall_UploadFile L c filename (L.pathJoin conf.RemoteDir name) (atUpload L name filename w)
  have hrm := any_isRemove_of_isBinding es hes
  cases hu : UploadFile L c filename (L.pathJoin conf.RemoteDir name)
      (atUpload L name filename w) with
  | ok err w1 =>
    rw [hu] at htr hfs
    simp only [Res.world, atUpload] at htr hfs
    cases err with
    | none =>
      refine ⟨_, uploadFile_uploaded L conf c name filename w w1 hIm hu, ?_, ?_, ?_⟩
      · rw [newEvents_eq w _ ([.retUploadFile, .remove filename (fileExists L w1.fs filename),
          .printf "upload completed" []] ++ es ++
          [.printf "upload: %s [%s]" [.str name, .size (L.FileSize filename)],
            .callUploadFile name filename]) (by simp [htr])]
        simp [isRemove]
      · intro _
        exact fileExists_filter _ _ _
      · intro hno
        exact absurd ⟨w1, rfl⟩ hno
    | some e0 =>
      have hne : newEvents w _ = _ := newEvents_eq w
        ⟨w1.fs ++ (w1.arrivals.head?.getD []), w1.arrivals.tail, w1.net, w1.clock + 10,
          .retUploadFile :: .sleep 10 :: .print [.str "upload file fail:", .str filename]
            :: .print [.val (.err e0)] :: w1.trace⟩
        ([.retUploadFile, .sleep 10, .print [.str "upload file fail:", .str filename],
          .print [.val (.err e0)]] ++ es ++
          [.printf "upload: %s [%s]" [.str name, .size (L.FileSize filename)],
            .callUploadFile name filename]) (by simp [htr])
      refine ⟨_, uploadFile_failed L conf c name filename w w1 e0 hIm hu, ?_, ?_, ?_⟩
      · rw [hne]
        simp [isRemove, hrm]
      · rintro ⟨w3, h3⟩
        simp at h3
      · intro _
        refine ⟨by rw [hne]; simp, fun h => ?_⟩
        simp only [hfs]
        exact fileExists_append _ _ _ _ h
  | panic r w1 =>
    rw [hu] at htr hfs
    simp only [Res.world, atUpload] at htr hfs
    have hne : newEvents w _ = _ := newEvents_eq w
      ⟨w1.fs ++ (w1.arrivals.head?.getD []), w1.arrivals.tail, w1.net, w1.clock + 10,
        .retUploadFile :: .sleep 10 :: .print [.str "upload file fail:", .str filename]
          :: .print [.val r] :: w1.trace⟩
      ([.retUploadFile, .sleep 10, .print [.str "upload file fail:", .str filename],
        .print [.val r]] ++ es ++
        [.printf "upload: %s [%s]" [.str name, .size (L.FileSize filename)],
          .callUploadFile name filename]) (by simp [htr])
    refine ⟨_, uploadFile_panicked L conf c name filename w w1 r hIm hu, ?_, ?_, ?_⟩
    · rw [hne]
      simp [isRemove, hrm]
    · rintro ⟨w3, h3⟩
      simp at h3
    · intro _
      refine ⟨by rw [hne]; simp, fun h => ?_⟩
      simp only [hfs]
      exact fileExists_append _ _ _ _ h
  | timeout w1 => exact absurd hu (hnt w1)

/-- C2, on an upload whose link request is answered with status 409. -/
theorem uploadFile_removes_iff_uploaded_witness :
    exConf.Imitation = false ∧
    ∃ w2, uploadFile exLib exConf (some exClient) "b.txt" "out/b.txt" worldNoLink = .ok () w2 ∧
      ((newEvents worldNoLink w2).any isRemove = true ↔
        ∃ w1, UploadFile exLib exClient "out/b.txt" (exLib.pathJoin exConf.RemoteDir "b.txt")
          (atUpload exLib "b.txt" "out/b.txt" worldNoLink) = .ok none w1) ∧
      ((∃ w1, UploadFile exLib exClient "out/b.txt" (exLib.pathJoin exConf.RemoteDir "b.txt")
          (atUpload exLib "b.txt" "out/b.txt" worldNoLink) = .ok none w1) →
        fileExists exLib w2.fs "out/b.txt" = false) ∧
      ((¬ ∃ w1, UploadFile exLib exClient "out/b.txt" (exLib.pathJoin exConf.RemoteDir "b.txt")
          (atUpload exLib "b.txt" "out/b.txt" worldNoLink) = .ok none w1) →
        Event.print [.str "upload file fail:", .str "out/b.txt"] ∈ newEvents worldNoLink w2 ∧
        (fileExists exLib worldNoLink.fs "out/b.txt" = true →
          fileExists exLib w2.fs "out/b.txt" = true)) :=
  ⟨rfl, uploadFile_removes_iff_uploaded exLib exConf exClient "b.txt" "out/b.txt" worldNoLink rfl⟩

/-- The two paths of C2 on concrete inputs: a refused link request leaves the
file in place, a completed upload removes it. -/
theorem uploadFile_paths :
    (∃ w2, uploadFile exLib exConf (some exClient) "b.txt" "out/b.txt" worldNoLink = .ok () w2 ∧
      fileExists exLib w2.fs "out/b.txt" = true) ∧
    (∃ w2, uploadFile exLib exConf (some exClient) "b.txt" "out/b.txt" worldUploadOk = .ok () w2 ∧
      fileExists exLib w2.fs "out/b.txt" = false) :=
  ⟨⟨_, rfl, by decide⟩, ⟨_, rfl, by decide⟩⟩

/-- C3 fails on the code: when the link request succeeds and the PUT of the
bytes is answered with status 507, `Client.UploadFile` returns a nil error,
and `uploadFile` then removes the local file that was there. -/
theorem UploadFile_put_status_unchecked :
    (∃ w1, UploadFile exLib exClient "out/b.txt" "/backup/b.txt" worldPutRejected = .ok none w1) ∧
    fileExists exLib worldPutRejected.fs "out/b.txt" = true ∧
    (∃ w2, uploadFile exLib exConf (some exClient) "b.txt" "out/b.txt" worldPutRejected
        = .ok () w2 ∧ fileExists exLib w2.fs "out/b.txt" = false) :=
  ⟨⟨_, rfl⟩, by decide, ⟨_, rfl, by decide⟩⟩

/-- C4 fails on the code: `Client.GetDisk` drops the error of `apiRequest`.
On a transport failure it does not return an error but panics on the nil
response; on a status 401 whose body stream still holds a quota object after
the error object it returns that quota with a nil error, and `checkDrive`
returns a verdict. -/
theorem GetDisk_drops_request_error :
    (∃ w1, GetDisk exLib exClient worldNetDown = .panic .nilDeref w1) ∧
    (∃ w1, GetDisk exLib exClient worldUnauthorized = .ok (⟨0, 100, 10, ⟨"", ""⟩⟩, none) w1) ∧
    (∃ w2, checkDrive exLib exConf (some exClient) worldUnauthorized = .ok true w2) :=
  ⟨⟨_, rfl⟩, ⟨_, rfl⟩, ⟨_, rfl⟩⟩

/-- C5: in every execution of `run` from an empty trace, every entry to
`uploadFile` is directly preceded by a return of `checkDrive` with verdict
true, computed from a usage within the configured limit. -/
theorem run_upload_after_pass (L : Lib) (conf : Config) (fuel : Nat) (w : World)
    (h0 : w.trace = []) :
    Preceded isCallUpload (isPassWithin conf.LimitDriveUsage)
      (run L conf fuel w).world.trace = true :=
  (run_trace L conf fuel w h0).1.1

/-- C5, on a run that uploads two files. -/
theorem run_upload_after_pass_witness :
    worldTwoUploads.trace = [] ∧
    ((run exLib exConf 2 worldTwoUploads).world.trace.filter isCallUpload).length = 2 ∧
    Preceded isCallUpload (isPassWithin exConf.LimitDriveUsage)
      (run exLib exConf 2 worldTwoUploads).world.trace = true :=
  ⟨rfl, by decide, run_upload_after_pass exLib exConf 2 worldTwoUploads rfl⟩

/-- C6 as stated fails: in the run that uploads two files, the action after
the first completed upload is the directory scan, not a quota check. -/
theorem run_check_after_upload_fails :
    Followed isRetUpload isCheckStart (run exLib exConf 2 worldTwoUploads).world.trace = false ∧
    (run exLib exConf 2 worldTwoUploads).world.trace.reverse[17]? = some .retUploadFile ∧
    (run exLib exConf 2 worldTwoUploads).world.trace.reverse[18]? = some (.readDir "out") := by
  decide

/-- C6, amended: in every execution of `run` from an empty trace, on the
trace of the whole run: each completed upload is directly followed by the
directory scan; each entry to `uploadFile` is directly preceded by a passed
quota check; every directory scan has a passed quota check somewhere before it
(the gate at startup); a failed quota check is directly followed by the start
of the next check (retry until pass); and a passed quota check is directly
followed by the entry to `uploadFile` or, at startup, by a request of the
folder step, never by a directory scan.  The gate `waitCheckDrive` taken alone
has the same retry shape and returns only on a passed check. -/
theorem run_gate_positions (L : Lib) (conf : Config) (fuel : Nat) (w : World)
    (h0 : w.trace = []) :
    Followed isRetUpload isReadDir (run L conf fuel w).world.trace = true ∧
    Preceded isCallUpload isPass (run L conf fuel w).world.trace = true ∧
    GateBefore (run L conf fuel w).world.trace = true ∧
    Followed isFail isCheckStart (run L conf fuel w).world.trace = true ∧
    Followed isPass afterPass (run L conf fuel w).world.trace = true ∧
    (∀ (cl : Option Client) (inner : Nat) (w1 : World),
      Followed isFail isCheckStart
        (newEvents w1 (waitCheckDrive L conf cl inner w1).world) = true ∧
      ∀ w2, waitCheckDrive L conf cl inner w1 = .ok () w2 →
        (w2.trace.head?.map isPass).getD false = true) := by
  refine ⟨(run_trace L conf fuel w h0).1.2.1,
    Preceded_mono _ _ _ (isPass_of_isPassWithin conf.LimitDriveUsage) _
      (run_trace L conf fuel w h0).1.1,
    (run_trace L conf fuel w h0).2,
    (run_trace L conf fuel w h0).1.2.2.1,
    (run_trace L conf fuel w h0).1.2.2.2, ?_⟩
  intro cl inner w1
  obtain ⟨es, htr, hF, -⟩ := waitCheckDrive_retry L conf cl inner w1
  obtain ⟨-, -, -, hpass⟩ := waitCheckDrive_trace L conf cl inner w1
  refine ⟨?_, fun w2 h2 => head_isPass_of_within _ _ (hpass w2 h2)⟩
  rw [newEvents_eq w1 _ es htr]
  exact hF

/-- C6 amended, on a run in which the quota check fails once at startup and
once inside the loop before the one upload. -/
theorem run_gate_positions_witness :
    worldRetryRun.trace = [] ∧
    ((run exLib exConf 2 worldRetryRun).world.trace.filter isFail).length = 2 ∧
    ((run exLib exConf 2 worldRetryRun).world.trace.filter isCallUpload).length = 1 ∧
    (Followed isRetUpload isReadDir (run exLib exConf 2 worldRetryRun).world.trace = true ∧
    Preceded isCallUpload isPass (run exLib exConf 2 worldRetryRun).world.trace = true ∧
    GateBefore (run exLib exConf 2 worldRetryRun).world.trace = true ∧
    Followed isFail isCheckStart (run exLib exConf 2 worldRetryRun).world.trace = true ∧
    Followed isPass afterPass (run exLib exConf 2 worldRetryRun).world.trace = true ∧
    (∀ (cl : Option Client) (inner : Nat) (w1 : World),
      Followed isFail isCheckStart
        (newEvents w1 (waitCheckDrive exLib exConf cl inner w1).world) = true ∧
      ∀ w2, waitCheckDrive exLib exConf cl inner w1 = .ok () w2 →
        (w2.trace.head?.map isPass).getD false = true)) :=
  ⟨rfl, by decide, by decide, run_gate_positions exLib exConf 2 worldRetryRun rfl⟩

/-- The same properties on the run that uploads two files without a failed
check: there each completed upload is followed by the scan. -/
theorem run_gate_positions_two_uploads :
    Followed isRetUpload isReadDir (run exLib exConf 2 worldTwoUploads).world.trace = true ∧
    Followed isPass afterPass (run exLib exConf 2 worldTwoUploads).world.trace = true ∧
    Followed isPass isReadDir (run exLib exConf 2 worldTwoUploads).world.trace = false := by
  decide

/-- The gate on a quota that is over the limit once and then within it: the
failed check sleeps, the check is repeated, and the gate returns. -/
theorem waitCheckDrive_retries_once :
    ∃ w2, waitCheckDrive exLib exConf (some exClient) 2 worldQuotaTwice = .ok () w2 ∧
      w2.trace.reverse.filter (fun e => isCheckStart e || isFail e || isPass e) =
        [.print [.str "check drive..."], .retCheckDrive false 90,
          .print [.str "check drive..."], .retCheckDrive true 50] :=
  ⟨_, rfl, by decide⟩

/-- C7: in simulation mode, for every client value, `uploadFile` returns
having added exactly the entry marker, the two log lines, the sleep, the
removal of the local file and the return marker: no request is sent, the
network script is untouched, and the local file is gone afterwards. -/
theorem uploadFile_imitation (L : Lib) (conf : Config) (client : Option Client)
    (name filename : String) (w : World) (hIm : conf.Imitation = true) :
    ∃ w2, uploadFile L conf client name filename w = .ok () w2 ∧
      newEvents w w2 = [.retUploadFile,
        .remove filename (fileExists L (w.fs ++ (w.arrivals.head?.getD [])) filename),
        .sleep 5, .print [.str "simulate upload..."],
        .printf "upload: %s [%s]" [.str name, .size (L.FileSize filename)],
        .callUploadFile name filename] ∧
      w2.net = w.net ∧
      (∀ e ∈ newEvents w w2, isHttp e = false) ∧
      fileExists L w2.fs filename = false := by
  refine ⟨_, uploadFile_simulated L conf client name filename w hIm, newEvents_eq w _ _ rfl, rfl,
    ?_, fileExists_filter _ _ _⟩
  rw [newEvents_eq w _ _ rfl]
  simp [isHttp]

/-- C7, with a client and with a nil client. -/
theorem uploadFile_imitation_witness :
    exConfSim.Imitation = true ∧
    (∃ w2, uploadFile exLib exConfSim (some exClient) "b.txt" "out/b.txt" worldPutRejected
        = .ok () w2 ∧
      newEvents worldPutRejected w2 = [.retUploadFile,
        .remove "out/b.txt" (fileExists exLib
          (worldPutRejected.fs ++ (worldPutRejected.arrivals.head?.getD [])) "out/b.txt"),
        .sleep 5, .print [.str "simulate upload..."],
        .printf "upload: %s [%s]" [.str "b.txt", .size (exLib.FileSize "out/b.txt")],
        .callUploadFile "b.txt" "out/b.txt"] ∧
      w2.net = worldPutRejected.net ∧
      (∀ e ∈ newEvents worldPutRejected w2, isHttp e = false) ∧
      fileExists exLib w2.fs "out/b.txt" = false) :=
  ⟨rfl, uploadFile_imitation exLib exConfSim (some exClient) "b.txt" "out/b.txt"
    worldPutRejected rfl⟩

/-- C8: for the listing `l` that `moon.ReadDir` returns for the local
directory, `nextFileForUpload` returns the pair of empty strings when `l` is
empty, and otherwise the first element of `l` with the join of the local
directory and that name; that path is not the empty marker, given that listed
names are non-empty and that the join of a non-empty name is non-empty. -/
theorem nextFileForUpload_first (L : Lib) (conf : Config) (w w1 : World) (l : List String)
    (hl : ReadDir conf.LocalDir w = .ok l w1)
    (hname : ∀ n ∈ l, n ≠ "") (hjoin : ∀ d n, n ≠ "" → L.PathJoin d n ≠ "") :
    (l = [] → nextFileForUpload L conf w = .ok ("", "") w1) ∧
    (∀ name rest, l = name :: rest →
      nextFileForUpload L conf w = .ok (name, L.PathJoin conf.LocalDir name) w1 ∧
      L.PathJoin conf.LocalDir name ≠ "") := by
  have key : nextFileForUpload L conf w =
      (match l with
        | [] => (pure ("", "") : M (String × String))
        | name :: _ => pure (name, L.PathJoin conf.LocalDir name)) w1 := by
    simp only [nextFileForUpload, bind_apply, hl]
  constructor
  · intro h
    subst h
    simpa using key
  · intro name rest h
    subst h
    exact ⟨by simpa using key, hjoin _ _ (hname name (by simp))⟩

/-- C8, on the listing b.txt, a.txt: the first listed name is returned, not
the alphabetically smallest. -/
theorem nextFileForUpload_first_witness :
    (∃ w1, ReadDir exConf.LocalDir worldTwoUploads = .ok ["b.txt", "a.txt"] w1 ∧
      nextFileForUpload exLib exConf worldTwoUploads = .ok ("b.txt", "out/b.txt") w1) ∧
    (∃ w1, nextFileForUpload exLib exConf worldEmptyDir = .ok ("", "") w1) :=
  ⟨⟨_, rfl, ((nextFileForUpload_first exLib exConf worldTwoUploads _ ["b.txt", "a.txt"] rfl
      (by decide) (fun d n _ => exLib_join_ne d n)).2 "b.txt" ["a.txt"] rfl).1⟩,
    ⟨_, rfl⟩⟩

/-- C9: `Client.Exist` returns (true, nil) when `GetResource` returns a nil
error, (false, nil) when it returns an `APIError` with code
"DiskNotFoundError", and (false, err) with the same error on every other
error; it returns true only after a lookup without error. -/
theorem Exist_cases (L : Lib) (c : Client) (path : String) (w : World) :
    (∀ r w1, GetResource L c path w = .ok (r, none) w1 → Exist L c path w = .ok (true, none) w1) ∧
    (∀ r e w1, GetResource L c path w = .ok (r, some (.api e)) w1 →
      e.Code = "DiskNotFoundError" → Exist L c path w = .ok (false, none) w1) ∧
    (∀ r err w1, GetResource L c path w = .ok (r, some err) w1 →
      (∀ e, err = .api e → e.Code ≠ "DiskNotFoundError") →
      Exist L c path w = .ok (false, some err) w1) ∧
    (∀ err w1, Exist L c path w = .ok (true, err) w1 →
      err = none ∧ ∃ r, GetResource L c path w = .ok (r, none) w1) := by
  refine ⟨?_, ?_, ?_, ?_⟩
  · intro r w1 h
    simp [Exist, h]
  · intro r e w1 h hc
    simp [Exist, h, hc]
  · intro r err w1 h hne
    cases err with
    | api e => simp [Exist, h, hne e rfl]
    | other m => simp [Exist, h]
  · intro err w1 h
    simp only [Exist, bind_apply] at h
    split at h
    · rename_i a w2 hg
      obtain ⟨r, e⟩ := a
      cases e with
      | none =>
        simp at h
        exact ⟨h.1.symm, r, by rw [hg, h.2]⟩
      | some e =>
        cases e with
        | api e =>
          simp at h
          split at h <;> simp at h
        | other m => simp at h
    · simp at h
    · simp at h

/-- C9, on the three kinds of answer: found, not found, refused. -/
theorem Exist_cases_witness :
    (∃ w1, Exist exLib exClient "/backup" worldFolderFound = .ok (true, none) w1) ∧
    (∃ w1, Exist exLib exClient "/backup" worldFolderMissing = .ok (false, none) w1) ∧
    (∃ w1, Exist exLib exClient "/backup" worldFolderRefused
      = .ok (false, some (.api ⟨"UnauthorizedError"⟩)) w1) :=
  ⟨⟨_, (Exist_cases exLib exClient "/backup" worldFolderFound).1 _ _ rfl⟩,
    ⟨_, (Exist_cases exLib exClient "/backup" worldFolderMissing).2.1 _ _ _ rfl rfl⟩,
    ⟨_, (Exist_cases exLib exClient "/backup" worldFolderRefused).2.2.1 _ _ _ rfl
      (by intro e h; cases h; decide)⟩⟩

/-- The first part of C10 holds: `Client.CreateFolderIfNotExist` runs
`CreateFolder` exactly when `Exist` returned (false, nil) and then returns its
result; otherwise it sends nothing more and returns the error of `Exist`. -/
theorem CreateFolderIfNotExist_cases (L : Lib) (c : Client) (path : String) (w : World) :
    (∀ w1, Exist L c path w = .ok (false, none) w1 →
      CreateFolderIfNotExist L c path w = CreateFolder L c path w1) ∧
    (∀ err w1, Exist L c path w = .ok (true, err) w1 →
      CreateFolderIfNotExist L c path w = .ok err w1) ∧
    (∀ e w1, Exist L c path w = .ok (false, some e) w1 →
      CreateFolderIfNotExist L c path w = .ok (some e) w1) := by
  refine ⟨?_, ?_, ?_⟩
  · intro w1 h
    simp [CreateFolderIfNotExist, h]
  · intro err w1 h
    simp [CreateFolderIfNotExist, h]
  · intro e w1 h
    simp [CreateFolderIfNotExist, h]

/-- C10 fails on the code in its last part: when the remote folder is missing
and creating it is refused, `CreateFolderIfNotExist` returns the error, and
`run` goes on into the loop all the same: it scans the directory and starts
an upload. -/
theorem run_ignores_folder_error :
    (∃ w1, CreateFolderIfNotExist exLib exClient "/backup"
        (exWorld [] [.resp ⟨404, [errorDoc "DiskNotFoundError"]⟩,
          .resp ⟨403, [errorDoc "ForbiddenError"]⟩])
      = .ok (some (.api ⟨"ForbiddenError"⟩)) w1) ∧
    (run exLib exConf 1 worldNoFolder).world.trace.reverse.drop 4 =
      [.http "GET" "https://cloud-api.yandex.net/v1/disk/resources?path=/backup&limit=50&sort=-created"
          "OAuth token",
        .http "PUT" "https://cloud-api.yandex.net/v1/disk/resources?path=/backup" "OAuth token",
        .readDir "out"] ++ (run exLib exConf 1 worldNoFolder).world.trace.reverse.drop 7 ∧
    (run exLib exConf 1 worldNoFolder).world.trace.any isCallUpload = true :=
  ⟨⟨_, rfl⟩, by decide, by decide⟩

end YandexDiskUpload
